import Mathlib

/-!
Verification of the double-stack asynchronous long-stack-trace engine.

The JavaScript sources (src/double-stack.js, src/options.js, src/index.js)
are shallowly embedded below.  The module's mutable state (the ERROR_ID
counter, the currentTraceError slot, error objects with their attached
properties __parent__/__stack__/__cached_trace__/__id__/__trace_count__,
and the memoised trace arrays) is an explicit state record St, and every
operation is a pure state transformer translated from the source.
Platform services the module merely calls (the V8 default stack renderer
installed by source-map-support, the String() coercion, the EventEmitter
internal listener storage) are modelled at their interface and marked as
such in their doc comments.
-/

namespace DoubleStack

/-- Floor of a rational, written so that it evaluates by kernel reduction
(Int division rounds toward negative infinity). -/
def ratFloor (q : ℚ) : ℤ := q.num / q.den

theorem ratFloor_eq_floor (q : ℚ) : ratFloor q = ⌊q⌋ := (Rat.floor_def).symm

/-- A JavaScript number: NaN, a signed infinity, or a finite value
(finite doubles are modelled as rationals). -/
inductive JSNum where
  | nan : JSNum
  | inf : Bool → JSNum
  | finite : ℚ → JSNum
deriving DecidableEq, Repr

/-- A JavaScript value, distinguished as far as the option setters and the
callback plumbing need: functions and plain objects carry only an identity. -/
inductive JSVal where
  | vNull : JSVal
  | vUndefined : JSVal
  | vBool : Bool → JSVal
  | vNum : JSNum → JSVal
  | vStr : String → JSVal
  | vFun : Nat → JSVal
  | vObj : Nat → JSVal
deriving DecidableEq, Repr

/-- Truncation of a finite JS number toward zero, as performed by the
ToInt32 conversion before wrapping. -/
def jsTrunc (q : ℚ) : ℤ := if 0 ≤ q then ratFloor q else -ratFloor (-q)

/-- ToInt32 as performed by the double bitwise-not operator in the
asyncTraceLimit setter: NaN and the infinities map to 0; a finite value is
truncated toward zero and wrapped into the signed 32-bit range. -/
def toInt32 : JSNum → ℤ
  | .nan => 0
  | .inf _ => 0
  | .finite q =>
    let m := jsTrunc q % 4294967296
    if 2147483648 ≤ m then m - 4294967296 else m

/-- Truthiness of a JS value: false, null, undefined, NaN, zero and the
empty string are the falsy values. -/
def jsTruthy : JSVal → Bool
  | .vNull => false
  | .vUndefined => false
  | .vBool b => b
  | .vNum .nan => false
  | .vNum (.inf _) => true
  | .vNum (.finite q) => if q = 0 then false else true
  | .vStr s => if s = "" then false else true
  | .vFun _ => true
  | .vObj _ => true

/-- Decimal digits of a fractional part, at most fuel digits.  Terminates
exactly for every binary-fraction double; part of the modelled ToString
primitive below. -/
def fracDigits : Nat → ℚ → String
  | 0, _ => ""
  | fuel+1, q =>
    if q = 0 then "" else
    let d := ratFloor (q * 10)
    toString d ++ fracDigits fuel (q * 10 - (d : ℚ))

/-- Decimal rendering of a finite JS number. -/
def ratToString (q : ℚ) : String :=
  (if q < 0 then "-" else "") ++
    toString (ratFloor |q|) ++
    (if |q| - (ratFloor |q| : ℚ) = 0 then ""
     else "." ++ fracDigits 40 (|q| - (ratFloor |q| : ℚ)))

/-- Modelled from the spec: the platform ToString coercion (String(value))
applied by the separator-token setter; an external primitive, not part of
the repository sources. -/
def jsToString : JSVal → String
  | .vNull => "null"
  | .vUndefined => "undefined"
  | .vBool b => if b then "true" else "false"
  | .vNum .nan => "NaN"
  | .vNum (.inf b) => if b then "Infinity" else "-Infinity"
  | .vNum (.finite q) => ratToString q
  | .vStr s => s
  | .vFun _ => "function"
  | .vObj _ => "[object Object]"

/-- The options store (src/options.js): the asyncTraceLimit and emptyFrame
fields with their constructor defaults. -/
structure Options where
  asyncTraceLimit : ℤ := 10
  emptyFrame : String := "-------------------------------------------------"
deriving DecidableEq, Repr

/-- Setter for asyncTraceLimit (options.js lines 22-27): throws a TypeError
when the value is not a number, is NaN, or has a negative int32 truncation;
otherwise stores the int32 truncation clamped at zero. -/
def setAsyncTraceLimit (o : Options) (v : JSVal) : Except String Options :=
  match v with
  | .vNum n =>
    if n = JSNum.nan ∨ toInt32 n < 0 then
      .error ("asyncTraceLimit must be a positive integer or zero")
    else
      .ok { o with asyncTraceLimit := max (toInt32 n) 0 }
  | _ => .error ("asyncTraceLimit must be a positive integer or zero")

/-- Setter for emptyFrame (options.js lines 41-46): throws a TypeError on
every falsy value and stores the string coercion otherwise. -/
def setEmptyFrame (o : Options) (v : JSVal) : Except String Options :=
  if jsTruthy v = false then .error ("emptyFrame must be a non-empty string")
  else .ok { o with emptyFrame := jsToString v }

end DoubleStack

deriving instance DecidableEq for Except

namespace DoubleStack

/-- C6 counterexample: the value -1/2 is a negative number, so the claim
demands a TypeError, but the setter accepts it (its int32 truncation is 0)
and stores 0. -/
theorem asyncTraceLimit_neg_fraction_accepted :
    (mkRat (-1) 2 : ℚ) < 0 ∧
      setAsyncTraceLimit {} (.vNum (.finite (mkRat (-1) 2)))
        = .ok { asyncTraceLimit := 0 } := by
  decide

/-- C6 (amended): the asyncTraceLimit setter raises a TypeError exactly when
the value is a non-number, NaN, or a number whose int32 truncation (toward
zero, wrapped to signed 32 bits) is negative; otherwise the stored value is
that truncation clamped at zero, with the separator token untouched. -/
theorem setAsyncTraceLimit_spec (o : Options) (v : JSVal) :
    ((∃ msg, setAsyncTraceLimit o v = .error msg) ↔
      ((∀ n, v ≠ .vNum n) ∨ v = .vNum .nan ∨
        (∃ n, v = .vNum n ∧ toInt32 n < 0))) ∧
    (∀ n, v = .vNum n → n ≠ .nan → 0 ≤ toInt32 n →
      setAsyncTraceLimit o v
        = .ok { asyncTraceLimit := max (toInt32 n) 0,
                emptyFrame := o.emptyFrame }) := by
  constructor
  · constructor
    · intro h
      match v with
      | .vNum n =>
        by_cases hc : n = JSNum.nan ∨ toInt32 n < 0
        · rcases hc with hc | hc
          · exact Or.inr (Or.inl (by rw [hc]))
          · exact Or.inr (Or.inr ⟨n, rfl, hc⟩)
        · simp [setAsyncTraceLimit, hc] at h
      | .vNull => exact Or.inl (fun n => by simp)
      | .vUndefined => exact Or.inl (fun n => by simp)
      | .vBool b => exact Or.inl (fun n => by simp)
      | .vStr s => exact Or.inl (fun n => by simp)
      | .vFun f => exact Or.inl (fun n => by simp)
      | .vObj f => exact Or.inl (fun n => by simp)
    · intro h
      rcases h with h | h | ⟨n, rfl, hn⟩
      · match v, h with
        | .vNull, _ => exact ⟨_, rfl⟩
        | .vUndefined, _ => exact ⟨_, rfl⟩
        | .vBool b, _ => exact ⟨_, rfl⟩
        | .vStr s, _ => exact ⟨_, rfl⟩
        | .vFun f, _ => exact ⟨_, rfl⟩
        | .vObj f, _ => exact ⟨_, rfl⟩
        | .vNum n, h => exact absurd rfl (h n)
      · subst h
        exact ⟨"asyncTraceLimit must be a positive integer or zero",
          by simp [setAsyncTraceLimit]⟩
      · exact ⟨"asyncTraceLimit must be a positive integer or zero",
          by simp [setAsyncTraceLimit, hn]⟩
  · rintro n rfl hn h0
    simp [setAsyncTraceLimit, hn, not_lt.mpr h0]

/-- C6 witness: a fractional in-range value 5/2 is accepted and stored
truncated to 2. -/
theorem setAsyncTraceLimit_spec_witness :
    setAsyncTraceLimit {} (.vNum (.finite (mkRat 5 2)))
      = .ok { asyncTraceLimit := max (toInt32 (.finite (mkRat 5 2))) 0,
              emptyFrame := Options.emptyFrame {} } :=
  (setAsyncTraceLimit_spec {} (.vNum (.finite (mkRat 5 2)))).2
    (.finite (mkRat 5 2)) rfl (by decide) (by decide)

/-- C7 counterexample: the number 0 is neither null, undefined, nor the
empty string, so the claim demands that it be stored coerced to a string,
but the setter rejects it with a TypeError (the guard rejects every falsy
value). -/
theorem emptyFrame_zero_rejected :
    JSVal.vNum (.finite 0) ≠ .vNull ∧
    JSVal.vNum (.finite 0) ≠ .vUndefined ∧
    JSVal.vNum (.finite 0) ≠ .vStr "" ∧
    setEmptyFrame {} (.vNum (.finite 0))
      = .error ("emptyFrame must be a non-empty string") := by
  refine ⟨by simp, by simp, by simp, ?_⟩
  decide

/-- C7 (amended): the emptyFrame setter raises a TypeError exactly on the
falsy values (null, undefined, the empty string, false, NaN, and zero);
every truthy value is stored coerced to its string form, with the trace
limit untouched. -/
theorem setEmptyFrame_spec (o : Options) (v : JSVal) :
    ((∃ msg, setEmptyFrame o v = .error msg) ↔
      (v = .vNull ∨ v = .vUndefined ∨ v = .vStr "" ∨ v = .vBool false ∨
        v = .vNum .nan ∨ v = .vNum (.finite 0))) ∧
    (jsTruthy v = true →
      setEmptyFrame o v
        = .ok { asyncTraceLimit := o.asyncTraceLimit,
                emptyFrame := jsToString v }) := by
  constructor
  · constructor
    · intro h
      match v with
      | .vNull => exact Or.inl rfl
      | .vUndefined => exact Or.inr (Or.inl rfl)
      | .vStr s =>
        by_cases hs : s = ""
        · subst hs; exact Or.inr (Or.inr (Or.inl rfl))
        · simp [setEmptyFrame, jsTruthy, hs] at h
      | .vBool b =>
        match b with
        | false => exact Or.inr (Or.inr (Or.inr (Or.inl rfl)))
        | true => simp [setEmptyFrame, jsTruthy] at h
      | .vNum n =>
        match n with
        | .nan => exact Or.inr (Or.inr (Or.inr (Or.inr (Or.inl rfl))))
        | .inf b => simp [setEmptyFrame, jsTruthy] at h
        | .finite q =>
          by_cases hq : q = 0
          · subst hq; exact Or.inr (Or.inr (Or.inr (Or.inr (Or.inr rfl))))
          · simp [setEmptyFrame, jsTruthy, hq] at h
      | .vFun f => simp [setEmptyFrame, jsTruthy] at h
      | .vObj f => simp [setEmptyFrame, jsTruthy] at h
    · intro h
      rcases h with rfl | rfl | rfl | rfl | rfl | rfl <;> exact ⟨_, rfl⟩
  · intro h
    have : jsTruthy v = false ↔ False := by simp [h]
    simp [setEmptyFrame, h]

/-- C7 witness: the truthy non-string value true is accepted and stored as
its string coercion. -/
theorem setEmptyFrame_spec_witness :
    setEmptyFrame {} (.vBool true)
      = .ok { asyncTraceLimit := Options.asyncTraceLimit {},
              emptyFrame := jsToString (.vBool true) } :=
  (setEmptyFrame_spec {} (.vBool true)).2 (by decide)

/-- The module filename constant (__filename) used to filter double-stack's
own call sites out of captured stacks. -/
def dsFilename : String := "double-stack.js"

/-- A V8 CallSite record as far as the module inspects it: the file name
(for the internal-frame filter), the method name (mutable through the
defineProperty patch in processStackTrace) and the rest of its rendered
text. -/
structure Frame where
  fileName : String
  methodName : Option String := none
  text : String := ""
deriving DecidableEq, Repr

/-- A JS Error object with the properties double-stack attaches.  An absent
__parent__ property and one holding null are both modelled as none; the
code only ever tests the property for truthiness, and delete only ever
removes it. -/
structure ErrObj where
  msg : String := "Error"
  parent : Option Nat := none
  stack : List Nat := []
  cached : Option Nat := none
  idTag : Nat := 0
  traceCount : Nat := 0
deriving DecidableEq, Repr

/-- A cached-trace entry: a call-site reference, or none for the null
separator marker pushed between chain segments. -/
abbrev Entry := Option Nat

/-- The module state: error objects, cached trace arrays and call-site
records (each addressed by index, the index playing the role of object
identity), the currentTraceError slot and the ERROR_ID counter. -/
structure St where
  errs : List ErrObj := []
  arrs : List (List Entry) := []
  frames : List Frame := []
  current : Option Nat := none
  errorId : Nat := 1
deriving DecidableEq, Repr

def getErr (st : St) (i : Nat) : ErrObj := st.errs.getD i {}

def getFrame (st : St) (i : Nat) : Frame := st.frames.getD i { fileName := "" }

def getArr (st : St) (r : Nat) : List Entry := st.arrs.getD r []

def setErrParent (st : St) (i : Nat) (p : Option Nat) : St :=
  { st with errs := st.errs.set i { st.errs.getD i {} with parent := p } }

def setErrCached (st : St) (i : Nat) (c : Option Nat) : St :=
  { st with errs := st.errs.set i { st.errs.getD i {} with cached := c } }

def setFrameMethodName (st : St) (i : Nat) (m : Option String) : St :=
  { st with frames :=
      st.frames.set i { st.frames.getD i { fileName := "" } with methodName := m } }

def setArr (st : St) (r : Nat) (l : List Entry) : St :=
  { st with arrs := st.arrs.set r l }

def pushArr (st : St) (r : Nat) (e : Entry) : St := setArr st r (getArr st r ++ [e])

def appendArr (st : St) (r : Nat) (es : List Entry) : St :=
  setArr st r (getArr st r ++ es)

/-- Truthiness test on a getMethodName result: null and the empty string
are falsy. -/
def methodNameFalsy : Option String → Bool
  | none => true
  | some s => if s = "" then true else false

/-- The frame-caching loop of processStackTrace (double-stack.js lines
73-82): call sites from other files are pushed onto the cache array; when
an internal call site is met at a positive index and the previous call site
has a falsy method name, the previous call site's getMethodName is patched
to return the internal call site's method name.  The previous call site is
carried as prev, present exactly when the index is positive. -/
def cacheFrames (arr : Nat) : St → List Nat → Option Nat → St
  | st, [], _ => st
  | st, f :: rest, prev =>
    if (getFrame st f).fileName ≠ dsFilename then
      cacheFrames arr (pushArr st arr (some f)) rest (some f)
    else
      let st₂ := match prev with
        | some p =>
          if methodNameFalsy (getFrame st p).methodName then
            setFrameMethodName st p (getFrame st f).methodName
          else st
        | none => st
      cacheFrames arr st₂ rest (some f)

/-- The cache-allocation and frame-caching prefix of a cache-miss
processStackTrace call (double-stack.js lines 69-82): push a fresh empty
array, register it as the error object's __cached_trace__, and run the
frame-caching loop over the raw stack. -/
def stAfterLoop (st : St) (e : Nat) (stack : List Nat) : St :=
  cacheFrames st.arrs.length
    (setErrCached { st with arrs := st.arrs ++ [[]] } e (some st.arrs.length))
    stack none

/-- Afterwards the top-level parent assignment (double-stack.js lines
84-86): a non-recursing call on an error without a parent records the
currentTraceError as its __parent__. -/
def stAfterParent (st : St) (e : Nat) (stack : List Nat)
    (recursing : Bool) : St :=
  if (getErr (stAfterLoop st e stack) e).parent = none ∧ recursing = false
  then setErrParent (stAfterLoop st e stack) e (stAfterLoop st e stack).current
  else stAfterLoop st e stack

/-- processStackTrace (double-stack.js lines 66-98): return the memoised
cache if present; otherwise allocate the cache array, register it on the
error, run the frame-caching loop, assign __parent__ from currentTraceError
(only at top level and only when no parent is present), and recursively
flatten the parent, splicing its nonempty result behind a null separator.
The JS recursion is modelled with fuel; callers pass more fuel than the
parent chain is long, and on exhaustion the call returns its state
unchanged with array reference 0 (unreachable under sufficient fuel). -/
def processStackTrace : Nat → St → Nat → List Nat → Bool → St × Nat
  | 0, st, _, _, _ => (st, 0)
  | fuel+1, st, e, stack, recursing =>
    match (getErr st e).cached with
    | some r => (st, r)
    | none =>
      match (getErr (stAfterParent st e stack recursing) e).parent with
      | some p =>
        let res := processStackTrace fuel (stAfterParent st e stack recursing)
          p (getErr (stAfterParent st e stack recursing) p).stack true
        if getArr res.1 res.2 ≠ [] then
          (appendArr res.1 st.arrs.length (none :: getArr res.1 res.2),
            st.arrs.length)
        else (res.1, st.arrs.length)
      | none => (stAfterParent st e stack recursing, st.arrs.length)

/-- Positions of the null separators in a cached trace.  The descending
splice loop of prepareStackTrace (lines 111-117) records, via unshift,
exactly the original indices of the null entries in ascending order, since
removing an entry never shifts the positions below it. -/
def sepIdx : List Entry → Nat → List Nat
  | [], _ => []
  | none :: rest, i => i :: sepIdx rest (i+1)
  | some _ :: rest, i => sepIdx rest (i+1)

/-- The cached trace after the splice loop removed every null separator. -/
def filterSome (l : List Entry) : List Entry := l.filter (fun en => en.isSome)

/-- Modelled from the spec: one rendered line of the stack renderer that was
installed before double-stack loaded (source-map-support wrapping the V8
default format): four spaces, the word at, and the call-site text with its
method name. -/
def frameLine (st : St) (f : Nat) : String :=
  "    at " ++
    (match (getFrame st f).methodName with
     | some m => m ++ " "
     | none => "") ++ (getFrame st f).text

/-- Modelled from the spec: the original platform renderer
(origPrepareStackTrace), specified at its interface: the first line is the
error's own description, then one line per call site.  double-stack joins
and re-splits these lines on newlines, which cancel; the model therefore
works with the list of lines. -/
def origPrepareLines (st : St) (e : Nat) (entries : List Entry) : List String :=
  (getErr st e).msg ::
    entries.map (fun en => match en with
      | some f => frameLine st f
      | none => "null")

/-- splice(i, 0, s): insert s before position i. -/
def insertAt (l : List String) (i : Nat) (s : String) : List String :=
  l.take i ++ s :: l.drop i

/-- The separator re-insertion loop of prepareStackTrace (lines 124-126):
for each recorded separator index i in ascending order, splice the
configured empty-frame token in at line i + 1. -/
def insertSeps (sep : String) : List String → List Nat → List String
  | lines, [] => lines
  | lines, i :: rest => insertSeps sep (insertAt lines (i+1) sep) rest

/-- prepareStackTrace (double-stack.js lines 106-128): flatten through
processStackTrace, splice the null separators out of the cached array
(mutating the cache in place), render through the original platform
renderer, and splice the configured empty-frame token back in at each
recorded position.  The result is the rendered trace as its list of lines;
the code joins them with newlines (prepareStackTraceStr). -/
def prepareStackTrace (opts : Options) (st : St) (e : Nat) (stack : List Nat) :
    St × List String :=
  let res := processStackTrace (st.errs.length + 1) st e stack false
  let combined := getArr res.1 res.2
  let seps := sepIdx combined 0
  let combined₂ := filterSome combined
  let st₂ := setArr res.1 res.2 combined₂
  (st₂, insertSeps opts.emptyFrame (origPrepareLines st₂ e combined₂) seps)

/-- The rendered trace as the single string the code returns. -/
def prepareStackTraceStr (opts : Options) (st : St) (e : Nat)
    (stack : List Nat) : String :=
  String.intercalate "\n" (prepareStackTrace opts st e stack).2

/-- The while loop of the chain-limiting step (double-stack.js lines
164-169): starting from the new trace error, follow __parent__ while the
node exists and count exceeds 1, decrementing count.  Fuel-driven; callers
pass more fuel than the loop can iterate (it iterates at most count - 1
times). -/
def limitWalk (st : St) : Nat → Option Nat → ℤ → Option Nat
  | 0, prev, _ => prev
  | _+1, none, _ => none
  | fuel+1, some p, count =>
    if 1 < count then limitWalk st fuel (getErr st p).parent (count - 1)
    else some p

/-- The chain-limiting step (double-stack.js lines 162-173) minus its
enclosing guard: run the while loop from the new trace error with
count = asyncTraceLimit - 1 and delete the __parent__ of the node reached,
if any. -/
def truncateChain (st : St) (e : Nat) (count : ℤ) : St :=
  match limitWalk st (count.toNat + 1) (some e) count with
  | some p => setErrParent st p none
  | none => st

/-- The snapshot-capturing prefix of wrap's returned function
(double-stack.js lines 146-173): allocate a fresh Error whose raw stack is
the given captured call sites, attach __id__ (the next ERROR_ID),
__parent__ (the currentTraceError), __stack__ and __trace_count__, and,
when asyncTraceLimit is positive, run the chain-limiting step. -/
def captureTraceError (opts : Options) (st : St) (captured : List Frame) :
    St × Nat :=
  let base := st.frames.length
  let refs := (List.range captured.length).map (fun i => base + i)
  let st₁ := { st with frames := st.frames ++ captured }
  let e := st₁.errs.length
  let tc := match st₁.current with
    | some p => (getErr st₁ p).traceCount + 1
    | none => 1
  let st₂ := { st₁ with
    errs := st₁.errs ++ [{ msg := "Error", parent := st₁.current, stack := refs,
                           idTag := st₁.errorId, traceCount := tc }],
    errorId := st₁.errorId + 1 }
  let st₃ := if 0 < opts.asyncTraceLimit then
               truncateChain st₂ e (opts.asyncTraceLimit - 1)
             else st₂
  (st₃, e)

/-- Result of a JS call: a normal return value or a thrown error object. -/
inductive Res where
  | ok : JSVal → Res
  | thrown : Nat → Res
deriving DecidableEq, Repr

/-- A callback: a state transformer taking a this-binding and an argument
list. -/
abbrev Callback := JSVal → List JSVal → St → St × Res

/-- The callback shim wrap substitutes at each callback position
(double-stack.js lines 184-194): set currentTraceError to the captured
trace error, apply the original callback to the identical this-binding and
argument list, on an exception touch e.stack (forcing the trace to be
rendered and cached while the context is still set) and rethrow it
unchanged, and on every exit path finally reset currentTraceError to
null. -/
def shim (opts : Options) (traceErr : Nat) (callback : Callback) : Callback :=
  fun thisv args st =>
    let res := callback thisv args { st with current := some traceErr }
    match res.2 with
    | .ok v => ({ res.1 with current := none }, .ok v)
    | .thrown e =>
      let st₂ := (prepareStackTrace opts res.1 e (getErr res.1 e).stack).1
      ({ st₂ with current := none }, .thrown e)

/-- The argument-wrapping loop of wrap (double-stack.js lines 175-200): the
argument list is copied and, at each callback position holding a function
value, that function is replaced by its shim (shimOf names the function
value standing for the shim of a given function); every other entry is left
untouched.  Reading arguments[pos] consults the original argument list, as
the code does; an out-of-range position reads undefined. -/
def wrapArgs (callbackPositions : List Nat) (shimOf : Nat → JSVal)
    (args : List JSVal) : List JSVal :=
  callbackPositions.foldl
    (fun acc pos =>
      match args.getD pos .vUndefined with
      | .vFun f => acc.set pos (shimOf f)
      | _ => acc)
    args

/-- C3 counterexample: a shim invoked while an outer snapshot (error 0) is
the current trace error resets the slot to null on exit, not to the prior
value: the restore-to-prior-value part of the claim is false. -/
theorem shim_does_not_restore_prior :
    ({ errs := [{}, {}], current := some 0 } : St).current = some 0 ∧
    ((shim {} 1 (fun _ _ st => (st, .ok .vNull)) .vNull []
        { errs := [{}, {}], current := some 0 }).1).current = none ∧
    (none : Option Nat) ≠ some 0 := by
  refine ⟨rfl, rfl, by simp⟩

/-- C3 (amended): the shim sets currentTraceError to the captured snapshot
before the original callback runs (a probing callback observes exactly that
snapshot), and on every exit path, normal return or throw, the slot is
reset to null regardless of the value it held before. -/
theorem shim_context_discipline (opts : Options) (traceErr : Nat)
    (callback : Callback) (thisv : JSVal) (args : List JSVal) (st : St) :
    ((shim opts traceErr callback thisv args st).1).current = none ∧
    (shim opts traceErr
        (fun _ _ s => (s, .ok (match s.current with
          | some i => .vNum (.finite (i : ℚ))
          | none => .vNull)))
        thisv args st).2
      = .ok (.vNum (.finite (traceErr : ℚ))) := by
  constructor
  · cases hr : (callback thisv args { st with current := some traceErr }).2 <;>
      simp [shim, hr]
  · rfl

/-- Helper: setting one list position leaves every other position's getD
unchanged. -/
theorem getD_set_ne {α : Type} (l : List α) (i j : Nat)
    (v d : α) (h : i ≠ j) : (l.set i v).getD j d = l.getD j d := by
  simp [List.getD, List.getElem?_set_ne h]

/-- Helper: the fold inside wrapArgs leaves every position that is not a
wrapped callback position, or does not hold a function value, unchanged,
and preserves the argument count. -/
theorem wrapArgs_fold_preserves (positions : List Nat) (shimOf : Nat → JSVal)
    (args : List JSVal) (i : Nat) :
    ∀ acc : List JSVal,
      (i ∉ positions ∨ ∀ f, args.getD i .vUndefined ≠ .vFun f) →
      acc.getD i .vUndefined = args.getD i .vUndefined →
      acc.length = args.length →
      (positions.foldl
        (fun acc pos =>
          match args.getD pos .vUndefined with
          | .vFun f => acc.set pos (shimOf f)
          | _ => acc) acc).getD i .vUndefined = args.getD i .vUndefined ∧
      (positions.foldl
        (fun acc pos =>
          match args.getD pos .vUndefined with
          | .vFun f => acc.set pos (shimOf f)
          | _ => acc) acc).length = args.length := by
  induction positions with
  | nil => intro acc _ h1 h2; exact ⟨h1, h2⟩
  | cons p ps ih =>
    intro acc hi h1 h2
    have hnotin : i ∉ ps ∨ ∀ f, args.getD i .vUndefined ≠ .vFun f := by
      rcases hi with hi | hi
      · exact Or.inl (fun hmem => hi (List.mem_cons_of_mem p hmem))
      · exact Or.inr hi
    have hpi : ∀ f, args.getD p .vUndefined = .vFun f → p ≠ i := by
      intro f hf hpeq
      subst hpeq
      rcases hi with hi | hi
      · exact hi (List.mem_cons_self p ps)
      · exact hi f hf
    simp only [List.foldl_cons]
    rcases hv : args.getD p .vUndefined with _ | _ | b | n | s | f | o <;>
      simp only [hv]
    case vFun =>
      refine ih (acc.set p (shimOf f)) hnotin ?_ ?_
      · rw [getD_set_ne acc p i _ _ (hpi f hv)]
        exact h1
      · rw [List.length_set]
        exact h2
    all_goals exact ih acc hnotin h1 h2

/-- C9: the shim invokes the original callback with the identical
this-binding and argument list it was itself invoked with (the callback is
applied to exactly thisv and args) and, on a normal return, passes the
callback's return value through unchanged; and the argument-wrapping loop
leaves every argument position that is not a function-valued callback
position untouched, preserving the argument count. -/
theorem wrap_callback_transparent (opts : Options) (traceErr : Nat)
    (callback : Callback) (thisv v : JSVal) (args : List JSVal)
    (st st' : St) (positions : List Nat) (shimOf : Nat → JSVal) (i : Nat)
    (hcb : callback thisv args { st with current := some traceErr }
      = (st', .ok v))
    (hi : i ∉ positions ∨ ∀ f, args.getD i .vUndefined ≠ .vFun f) :
    shim opts traceErr callback thisv args st
        = ({ st' with current := none }, .ok v) ∧
    (wrapArgs positions shimOf args).getD i .vUndefined
        = args.getD i .vUndefined ∧
    (wrapArgs positions shimOf args).length = args.length := by
  refine ⟨by simp [shim, hcb], ?_, ?_⟩
  · exact (wrapArgs_fold_preserves positions shimOf args i args hi rfl rfl).1
  · exact (wrapArgs_fold_preserves positions shimOf args i args hi rfl rfl).2

/-- C9 witness: a concrete callback returning a string through the shim,
with a two-argument list whose non-callback position 0 survives wrapping. -/
theorem wrap_callback_transparent_witness :
    shim {} 0 (fun _ _ s => (s, .ok (.vStr "ret"))) (.vObj 3)
        [.vStr "x", .vFun 7] {} = ({}, .ok (.vStr "ret")) ∧
    (wrapArgs [1] (fun f => .vObj f) [.vStr "x", .vFun 7]).getD 0 .vUndefined
        = ([.vStr "x", .vFun 7] : List JSVal).getD 0 .vUndefined ∧
    (wrapArgs [1] (fun f => .vObj f) [.vStr "x", .vFun 7]).length
        = ([.vStr "x", .vFun 7] : List JSVal).length :=
  wrap_callback_transparent {} 0 (fun _ _ s => (s, .ok (.vStr "ret")))
    (.vObj 3) (.vStr "ret") [.vStr "x", .vFun 7] {} { current := some 0 }
    [1] (fun f => .vObj f) 0 rfl (Or.inl (by decide))

/-- A listener as stored in the EventEmitter internal registry: the stored
function's identity plus, when the stored function is a wrap shim, the
__original_callback__ attached to it (double-stack.js line 197). -/
structure StoredL where
  selfId : Nat
  original : Option Nat := none
deriving DecidableEq, Repr

/-- The unwrapping expression listener.__original_callback__ || listener
used by the overridden listeners and removeListener. -/
def unwrapL (l : StoredL) : Nat := l.original.getD l.selfId

/-- The match test of the overridden removeListener (line 268): the
argument equals the stored listener's original callback or the stored
listener itself. -/
def matchesL (l : StoredL) (t : Nat) : Bool := unwrapL l == t || l.selfId == t

/-- Modelled from the spec: the platform EventEmitter appends each
registered listener to its per-event internal list; through the wrapped
addListener (double-stack.js line 247) the appended entry is the shim
carrying the original callback. -/
def addListenerW (ls : List StoredL) (shimId orig : Nat) : List StoredL :=
  ls ++ [{ selfId := shimId, original := some orig }]

/-- The overridden listeners() (double-stack.js lines 257-259): map each
stored listener to its original callback when it carries one, else to
itself. -/
def listenersW (ls : List StoredL) : List Nat := ls.map unwrapL

/-- The overridden removeListener (double-stack.js lines 264-273): scan the
stored listeners in order and, at the first match, hand that exact stored
shim to the platform removal, which deletes it; with no match the emitter
is returned unchanged. -/
def removeListenerW : List StoredL → Nat → List StoredL
  | [], _ => []
  | l :: rest, t =>
    if matchesL l t then rest else l :: removeListenerW rest t

/-- Modelled from the spec: emitting an event invokes each stored listener
in order, and a stored shim invokes its original callback, so the originals
invoked are the unwrapped stored listeners in order. -/
def emitInvoked (ls : List StoredL) : List Nat := ls.map unwrapL

/-- Helper: when no stored listener matches, the target is not among the
unwrapped listeners. -/
theorem not_mem_unwrap_of_no_match (ls : List StoredL) (f : Nat)
    (h : ∀ l ∈ ls, matchesL l f = false) : f ∉ ls.map unwrapL := by
  intro hmem
  rcases List.mem_map.mp hmem with ⟨l, hl, hu⟩
  have := h l hl
  simp [matchesL, hu] at this

/-- Helper: removing a listener that matches exactly one stored entry
leaves a registry whose unwrapped listeners no longer contain the target. -/
theorem removeListener_unique_not_mem (ls : List StoredL) (f : Nat)
    (h : (ls.filter (fun l => matchesL l f)).length = 1) :
    f ∉ (removeListenerW ls f).map unwrapL := by
  induction ls with
  | nil => simp at h
  | cons l rest ih =>
    rw [List.filter_cons] at h
    cases hm : matchesL l f with
    | true =>
      rw [if_pos (by simp [hm])] at h
      have h0 : rest.filter (fun l => matchesL l f) = [] := by
        simpa using h
      have hrest : ∀ l2 ∈ rest, matchesL l2 f = false := by
        intro l2 hl2
        by_contra hc
        have hmem : l2 ∈ rest.filter (fun l => matchesL l f) :=
          List.mem_filter.mpr ⟨hl2, by simpa using hc⟩
        simp [h0] at hmem
      simpa [removeListenerW, hm] using not_mem_unwrap_of_no_match rest f hrest
    | false =>
      rw [if_neg (by simp [hm])] at h
      have hl : unwrapL l ≠ f := by
        intro he
        simp [matchesL, he] at hm
      have ht := ih h
      simp only [removeListenerW, hm, Bool.false_eq_true, if_false,
        List.map_cons]
      intro hmem
      rcases List.mem_cons.mp hmem with he | he
      · exact hl he.symm
      · exact ht he

/-- C5: listener enumeration on a registry built through the wrapped
addListener returns the original callbacks in registration order (never the
shims), and removal by an original callback that matches exactly one stored
listener leaves a registry in which enumeration omits it and emission does
not invoke it. -/
theorem listener_transparency :
    (∀ regs : List (Nat × Nat),
      listenersW (regs.foldl (fun ls r => addListenerW ls r.1 r.2) [])
        = regs.map (fun r => r.2)) ∧
    (∀ (ls : List StoredL) (f : Nat),
      (ls.filter (fun l => matchesL l f)).length = 1 →
      f ∉ listenersW (removeListenerW ls f) ∧
      f ∉ emitInvoked (removeListenerW ls f)) := by
  constructor
  · intro regs
    suffices h : ∀ acc : List StoredL,
        listenersW (regs.foldl (fun ls r => addListenerW ls r.1 r.2) acc)
          = listenersW acc ++ regs.map (fun r => r.2) by
      simpa [listenersW] using h []
    induction regs with
    | nil => intro acc; simp
    | cons r rs ih =>
      intro acc
      rw [List.foldl_cons, ih (addListenerW acc r.1 r.2)]
      simp [listenersW, addListenerW, unwrapL]
  · intro ls f h
    exact ⟨removeListener_unique_not_mem ls f h,
           removeListener_unique_not_mem ls f h⟩

/-- C5 witness: two registered listeners with originals 5 and 6; removing
original 5 (which matches exactly the first stored shim) leaves a registry
that neither enumerates nor invokes it. -/
theorem listener_transparency_witness :
    5 ∉ listenersW (removeListenerW
        [{ selfId := 10, original := some 5 },
         { selfId := 11, original := some 6 }] 5) ∧
    5 ∉ emitInvoked (removeListenerW
        [{ selfId := 10, original := some 5 },
         { selfId := 11, original := some 6 }] 5) :=
  listener_transparency.2
    [{ selfId := 10, original := some 5 }, { selfId := 11, original := some 6 }]
    5 (by decide)

/-- C10: removeListener with a function that matches no stored listener,
neither as an original callback nor as the stored shim itself, removes
nothing: the listener registry is returned unchanged (the call returns the
emitter itself). -/
theorem removeListener_no_match (ls : List StoredL) (f : Nat)
    (h : ∀ l ∈ ls, unwrapL l ≠ f ∧ l.selfId ≠ f) :
    removeListenerW ls f = ls := by
  induction ls with
  | nil => rfl
  | cons l rest ih =>
    have hl := h l (List.mem_cons_self l rest)
    have hm : matchesL l f = false := by
      simp [matchesL, hl.1, hl.2]
    rw [removeListenerW, if_neg (by simp [hm])]
    rw [ih (fun l2 h2 => h l2 (List.mem_cons_of_mem l h2))]

/-- C10 witness: removing the unregistered function 99 leaves a one-entry
registry unchanged. -/
theorem removeListener_no_match_witness :
    removeListenerW [{ selfId := 10, original := some 5 }] 99
      = [{ selfId := 10, original := some 5 }] :=
  removeListener_no_match [{ selfId := 10, original := some 5 }] 99
    (by decide)

/-- prepareStackTrace of the index.js variant (lines 49-79): the same
caching core, but the top-level call renders by applying the configured
formatStack to the error and the flattened cache and coercing a falsy
result to the empty string (line 78).  The configured renderer, together
with the sourceMap module the code passes it, is modelled as the function
parameter. -/
def prepareStackTraceIdx (formatStack : Nat → List Entry → JSVal)
    (st : St) (e : Nat) (stack : List Nat) : St × JSVal :=
  let res := processStackTrace (st.errs.length + 1) st e stack false
  let v := formatStack e (getArr res.1 res.2)
  (res.1, if jsTruthy v then v else .vStr "")

/-- C8: when the configured renderer returns a falsy value on every input,
requesting the stack of any subsequently raised error yields the empty
string, as a normal return rather than an error. -/
theorem formatStack_falsy_empty (formatStack : Nat → List Entry → JSVal)
    (h : ∀ e entries, jsTruthy (formatStack e entries) = false)
    (st : St) (e : Nat) (stack : List Nat) :
    (prepareStackTraceIdx formatStack st e stack).2 = .vStr "" := by
  unfold prepareStackTraceIdx
  simp [h]

/-- C8 witness: the renderer of the regression test returns undefined, and
the rendered stack of a freshly raised error is the empty string. -/
theorem formatStack_falsy_empty_witness :
    (prepareStackTraceIdx (fun _ _ => .vUndefined)
        { errs := [{ stack := [0] }], frames := [{ fileName := "app.js" }] }
        0 [0]).2 = .vStr "" :=
  formatStack_falsy_empty (fun _ _ => .vUndefined) (fun _ _ => rfl)
    { errs := [{ stack := [0] }], frames := [{ fileName := "app.js" }] } 0 [0]

/-- The user-level call site captured at the k-th scheduling boundary of
the nested scenario: one frame of application code, external to
double-stack. -/
def userFrame (k : Nat) : Frame :=
  { fileName := "app.js", text := "schedule" ++ toString k }

/-- One scheduling boundary of the nested scenario: the wrapped entry point
captures a trace error whose raw stack is the scheduling caller's frame
(the currentTraceError at that moment becoming its parent), and the shim of
the scheduled callback later fires, setting currentTraceError to that
snapshot; the next boundary of the scenario is scheduled from inside that
callback. -/
def boundaryStep (opts : Options) (st : St) (k : Nat) : St :=
  let res := captureTraceError opts st [userFrame k]
  { res.1 with current := some res.2 }

/-- The state after k nested scheduling boundaries with the innermost
callback running. -/
def chainSt (opts : Options) : Nat → St
  | 0 => {}
  | k+1 => boundaryStep opts (chainSt opts k) k

/-- The state after the innermost callback allocates a fresh error: one
application call site is captured as its raw stack. -/
def raisedSt (st : St) : St :=
  { st with
    frames := st.frames ++ [{ fileName := "app.js", text := "throwsite" }],
    errs := st.errs ++ [{ msg := "Error: boom", stack := [st.frames.length] }] }

/-- The innermost callback raises the fresh error; the platform hands the
error and its raw stack to the installed prepareStackTrace, and the
rendered lines are returned. -/
def raiseInnermost (opts : Options) (st : St) : List String :=
  (prepareStackTrace opts (raisedSt st) st.errs.length [st.frames.length]).2

/-- Options of the nested scenario: the given chain depth limit with the
default separator token. -/
def scOpts (L : ℤ) : Options := { asyncTraceLimit := L }

/-- The rendered trace of the nested scenario: L the configured limit, N
the number of nested boundaries. -/
def nestedTrace (L : ℤ) (N : Nat) : List String :=
  raiseInnermost (scOpts L) (chainSt (scOpts L) N)

/-- Number of lines equal to a given token. -/
def countTok (sep : String) : List String → Nat
  | [] => 0
  | s :: rest => (if s = sep then 1 else 0) + countTok sep rest

/-- Number of null separator markers in a cached trace. -/
def countNone : List Entry → Nat
  | [] => 0
  | none :: rest => countNone rest + 1
  | some _ :: rest => countNone rest

/-- The length of the surviving parent chain of the innermost snapshot
after N boundaries under limit L, as the code leaves it. -/
def clen (L : ℤ) (N : Nat) : Nat :=
  if L = 0 then N else if L = 1 then 1 else min N (L-1).toNat

/-- The descending list [top, top-1, ..., top-m+1]. -/
def descList : Nat → Nat → List Nat
  | _, 0 => []
  | top, m+1 => top :: descList (top-1) m

/-- The parent chain starting at p is exactly the list l. -/
def IsChain (st : St) : List Nat → Option Nat → Prop
  | [], p => p = none
  | x :: xs, p => p = some x ∧ IsChain st xs (getErr st x).parent

/-- The node at which the chain-limiting while loop stops when walking the
chain l with the given count. -/
def chainNth : List Nat → ℤ → Option Nat
  | [], _ => none
  | x :: xs, c => if 1 < c then chainNth xs (c-1) else some x

/-- The flattened cache of a chain: the head's own frame, then for each
further member a null separator followed by that member's frame. -/
def chainEntries : List Nat → List Entry
  | [] => []
  | [x] => [some x]
  | x :: y :: xs => some x :: none :: chainEntries (y :: xs)

/-- Helper: getD after set at the same position. -/
theorem getD_set_self {α : Type} (l : List α) (i : Nat) (v d : α)
    (h : i < l.length) : (l.set i v).getD i d = v := by
  induction l generalizing i with
  | nil => simp at h
  | cons a as ih =>
    cases i with
    | zero => rfl
    | succ n => exact ih n (by simpa using h)

theorem getErr_setErrParent_self (st : St) (i : Nat) (p : Option Nat)
    (h : i < st.errs.length) :
    getErr (setErrParent st i p) i = { getErr st i with parent := p } := by
  simp only [getErr, setErrParent]
  rw [getD_set_self _ _ _ _ h]

theorem getErr_setErrParent_ne (st : St) (i j : Nat) (p : Option Nat)
    (h : i ≠ j) : getErr (setErrParent st i p) j = getErr st j := by
  simp only [getErr, setErrParent]
  rw [getD_set_ne _ _ _ _ _ h]

theorem getErr_setErrCached_self (st : St) (i : Nat) (c : Option Nat)
    (h : i < st.errs.length) :
    getErr (setErrCached st i c) i = { getErr st i with cached := c } := by
  simp only [getErr, setErrCached]
  rw [getD_set_self _ _ _ _ h]

theorem getErr_setErrCached_ne (st : St) (i j : Nat) (c : Option Nat)
    (h : i ≠ j) : getErr (setErrCached st i c) j = getErr st j := by
  simp only [getErr, setErrCached]
  rw [getD_set_ne _ _ _ _ _ h]

theorem getArr_setArr_self (st : St) (r : Nat) (l : List Entry)
    (h : r < st.arrs.length) : getArr (setArr st r l) r = l := by
  simp only [getArr, setArr]
  rw [getD_set_self _ _ _ _ h]

theorem getArr_setArr_ne (st : St) (r r2 : Nat) (l : List Entry)
    (h : r ≠ r2) : getArr (setArr st r l) r2 = getArr st r2 := by
  simp only [getArr, setArr]
  rw [getD_set_ne _ _ _ _ _ h]

/-- Helper: a chain predicate only depends on the error objects of its
members. -/
theorem IsChain_congr (st st' : St) (l : List Nat) (p : Option Nat)
    (h : ∀ j ∈ l, getErr st' j = getErr st j) :
    IsChain st l p → IsChain st' l p := by
  induction l generalizing p with
  | nil => exact fun hc => hc
  | cons x xs ih =>
    intro hc
    refine ⟨hc.1, ?_⟩
    rw [h x (List.mem_cons_self x xs)]
    exact ih (getErr st x).parent (fun j hj => h j (List.mem_cons_of_mem x hj))
      hc.2

/-- Helper: setting a list position at or beyond the length is a no-op. -/
theorem set_oob {α : Type} (l : List α) (i : Nat) (v : α)
    (h : l.length ≤ i) : l.set i v = l := by
  induction l generalizing i with
  | nil => rfl
  | cons a as ih =>
    cases i with
    | zero => simp at h
    | succ n =>
      simp only [List.set]
      rw [ih n (by simpa using h)]

/-- Helper: setErrParent changes nothing but the parent field of the one
error object, and no other state component. -/
theorem getErr_setErrParent_fields (st : St) (i j : Nat) (p : Option Nat) :
    (getErr (setErrParent st i p) j).stack = (getErr st j).stack ∧
    (getErr (setErrParent st i p) j).cached = (getErr st j).cached ∧
    (getErr (setErrParent st i p) j).msg = (getErr st j).msg := by
  by_cases h : i = j
  · subst h
    by_cases hl : i < st.errs.length
    · rw [getErr_setErrParent_self st i p hl]
      exact ⟨rfl, rfl, rfl⟩
    · have : (setErrParent st i p).errs = st.errs := by
        simp only [setErrParent]
        exact set_oob _ _ _ (by omega)
      simp [getErr, this]
  · rw [getErr_setErrParent_ne st i j p h]
    exact ⟨rfl, rfl, rfl⟩

/-- Helper: the chain-limiting while loop stops exactly where chainNth
says, given more fuel than count - 1 iterations. -/
theorem limitWalk_eq_chainNth (st : St) (l : List Nat) :
    ∀ (fuel : Nat) (p : Option Nat) (c : ℤ),
    IsChain st l p → (c - 1).toNat < fuel →
    limitWalk st fuel p c = chainNth l c := by
  induction l with
  | nil =>
    intro fuel p c hc _
    have hp : p = none := hc
    subst hp
    cases fuel with
    | zero => rfl
    | succ f => rfl
  | cons x xs ih =>
    intro fuel p c hc hf
    have hp : p = some x := hc.1
    subst hp
    cases fuel with
    | zero => omega
    | succ f =>
      simp only [limitWalk, chainNth]
      by_cases h1 : 1 < c
      · rw [if_pos h1, if_pos h1]
        exact ih f (getErr st x).parent (c-1) hc.2 (by omega)
      · rw [if_neg h1, if_neg h1]

/-- Helper: where the while loop stops on a descending chain. -/
theorem chainNth_desc (m : Nat) :
    ∀ (top : Nat) (c : ℤ),
    chainNth (descList top m) c
      = if (c - 1).toNat < m then some (top - (c - 1).toNat) else none := by
  induction m with
  | zero =>
    intro top c
    simp [descList, chainNth]
  | succ m ih =>
    intro top c
    simp only [descList, chainNth]
    by_cases h1 : 1 < c
    · rw [if_pos h1, ih (top-1) (c-1)]
      by_cases h2 : (c - 1 - 1).toNat < m
      · rw [if_pos h2, if_pos (by omega)]
        congr 1
        omega
      · rw [if_neg h2, if_neg (by omega)]
    · rw [if_neg h1, if_pos (by omega)]
      congr 1
      omega

theorem descList_length (m : Nat) : ∀ top, (descList top m).length = m := by
  induction m with
  | zero => intro top; rfl
  | succ m ih =>
    intro top
    simp only [descList, List.length_cons, ih (top-1)]

theorem descList_mem (m : Nat) :
    ∀ top j, m ≤ top + 1 →
      (j ∈ descList top m ↔ top + 1 - m ≤ j ∧ j ≤ top) := by
  induction m with
  | zero =>
    intro top j _
    simp only [descList]
    constructor
    · intro h
      exact absurd h (List.not_mem_nil j)
    · intro h
      exfalso
      omega
  | succ m ih =>
    intro top j hm
    simp only [descList, List.mem_cons]
    rw [ih (top-1) j (by omega)]
    omega

theorem descList_nodup (m : Nat) :
    ∀ top, m ≤ top + 1 → (descList top m).Nodup := by
  induction m with
  | zero => intro top _; exact List.nodup_nil
  | succ m ih =>
    intro top hm
    refine List.Nodup.cons ?_ (ih (top-1) (by omega))
    intro hmem
    rw [descList_mem m (top-1) top (by omega)] at hmem
    omega

/-- Helper: building a descending chain from pointwise parent facts. -/
theorem IsChain_desc_intro (m : Nat) :
    ∀ (st : St) (top : Nat), 1 ≤ m →
    (∀ i, i + 1 < m → (getErr st (top - i)).parent = some (top - i - 1)) →
    (getErr st (top - (m - 1))).parent = none →
    IsChain st (descList top m) (some top) := by
  induction m with
  | zero => intro st top h; exact absurd h (by omega)
  | succ m ih =>
    intro st top _ hpar hlast
    refine ⟨rfl, ?_⟩
    cases m with
    | zero =>
      have : (getErr st top).parent = none := by simpa using hlast
      rw [this]
      exact rfl
    | succ m2 =>
      have hp0 : (getErr st top).parent = some (top - 1) := by
        simpa using hpar 0 (by omega)
      rw [hp0]
      refine ih st (top - 1) (by omega) ?_ ?_
      · intro i hi
        have h2 := hpar (i+1) (by omega)
        have he1 : top - 1 - i = top - (i + 1) := by omega
        rw [he1]
        exact h2
      · have he : top - 1 - (m2 + 1 - 1) = top - (m2 + 1 + 1 - 1) := by omega
        rw [he]
        exact hlast

/-- Helper: extracting pointwise parent facts from a descending chain. -/
theorem IsChain_desc_elim (m : Nat) :
    ∀ (st : St) (top : Nat), 1 ≤ m →
    IsChain st (descList top m) (some top) →
    (∀ i, i + 1 < m → (getErr st (top - i)).parent = some (top - i - 1)) ∧
    (getErr st (top - (m - 1))).parent = none := by
  induction m with
  | zero => intro st top h; exact absurd h (by omega)
  | succ m ih =>
    intro st top _ hc
    cases m with
    | zero =>
      refine ⟨fun i hi => by omega, ?_⟩
      have := hc.2
      simpa using this
    | succ m2 =>
      have hp0 : (getErr st top).parent = some (top - 1) := hc.2.1
      have htail : IsChain st (descList (top - 1) (m2 + 1)) (some (top - 1)) := by
        have := hc.2
        rw [hp0] at this
        exact this
      have hih := ih st (top - 1) (by omega) htail
      constructor
      · intro i hi
        cases i with
        | zero => simpa using hp0
        | succ i2 =>
          have h2 := hih.1 i2 (by omega)
          have he1 : top - 1 - i2 = top - (i2 + 1) := by omega
          rw [he1] at h2
          exact h2
      · have h2 := hih.2
        have he : top - 1 - (m2 + 1 - 1) = top - (m2 + 1 + 1 - 1) := by omega
        rw [he] at h2
        exact h2

/-- The error object attached by a single-frame capture: parent is the
currentTraceError, the raw stack is the one captured frame, and id and
trace count come from the counters. -/
def snapErr (st : St) : ErrObj :=
  { msg := "Error", parent := st.current, stack := [st.frames.length],
    idTag := st.errorId,
    traceCount := match st.current with
      | some p => (getErr st p).traceCount + 1
      | none => 1 }

/-- The state after the property-attachment step of a single-frame capture
(double-stack.js lines 146-160), before the chain-limiting step. -/
def captureSnapSt (st : St) (fr : Frame) : St :=
  { st with
    frames := st.frames ++ [fr],
    errs := st.errs ++ [snapErr st],
    errorId := st.errorId + 1 }

/-- Helper: a single-frame capture is the property attachment followed by
the guarded chain-limiting step. -/
theorem captureTraceError_effect (opts : Options) (st : St) (fr : Frame) :
    captureTraceError opts st [fr]
      = (if 0 < opts.asyncTraceLimit then
           truncateChain (captureSnapSt st fr) st.errs.length
             (opts.asyncTraceLimit - 1)
         else captureSnapSt st fr, st.errs.length) := rfl

theorem clen_pos (L : ℤ) (hL : 0 ≤ L) (N : Nat) (hN : 1 ≤ N) :
    1 ≤ clen L N := by
  unfold clen
  split
  · omega
  · split
    · omega
    · omega

theorem clen_le (L : ℤ) (N : Nat) (hN : 1 ≤ N) : clen L N ≤ N := by
  unfold clen
  split
  · omega
  · split
    · omega
    · omega

/-- Helper: the chain-limiting step touches only one parent link: every
other error-object field, and every other state component, is unchanged. -/
theorem truncateChain_basic (st : St) (e : Nat) (c : ℤ) :
    (truncateChain st e c).frames = st.frames ∧
    (truncateChain st e c).arrs = st.arrs ∧
    (truncateChain st e c).current = st.current ∧
    (truncateChain st e c).errs.length = st.errs.length ∧
    (∀ j, (getErr (truncateChain st e c) j).stack = (getErr st j).stack ∧
      (getErr (truncateChain st e c) j).cached = (getErr st j).cached ∧
      (getErr (truncateChain st e c) j).msg = (getErr st j).msg) := by
  unfold truncateChain
  cases limitWalk st (c.toNat + 1) (some e) c with
  | none => exact ⟨rfl, rfl, rfl, rfl, fun j => ⟨rfl, rfl, rfl⟩⟩
  | some p =>
    refine ⟨rfl, rfl, rfl, ?_, fun j => getErr_setErrParent_fields st p j none⟩
    simp [setErrParent]

theorem captureSnapSt_getErr_lt (st : St) (fr : Frame) (j : Nat)
    (h : j < st.errs.length) :
    getErr (captureSnapSt st fr) j = getErr st j := by
  simp only [captureSnapSt, getErr]
  exact List.getD_append _ _ _ _ h

theorem captureSnapSt_getErr_new (st : St) (fr : Frame) :
    getErr (captureSnapSt st fr) st.errs.length = snapErr st := by
  simp only [captureSnapSt, getErr]
  rw [List.getD_append_right _ _ _ _ (le_refl _)]
  simp

theorem captureSnapSt_getFrame_lt (st : St) (fr : Frame) (j : Nat)
    (h : j < st.frames.length) :
    getFrame (captureSnapSt st fr) j = getFrame st j := by
  simp only [captureSnapSt, getFrame]
  exact List.getD_append _ _ _ _ h

theorem captureSnapSt_getFrame_new (st : St) (fr : Frame) :
    getFrame (captureSnapSt st fr) st.frames.length = fr := by
  simp only [captureSnapSt, getFrame]
  rw [List.getD_append_right _ _ _ _ (le_refl _)]
  simp

/-- Helper: a scheduling boundary is the capture followed by the shim later
setting currentTraceError to the new snapshot. -/
theorem boundaryStep_effect (opts : Options) (st : St) (k : Nat) :
    boundaryStep opts st k
      = { (if 0 < opts.asyncTraceLimit then
             truncateChain (captureSnapSt st (userFrame k)) st.errs.length
               (opts.asyncTraceLimit - 1)
           else captureSnapSt st (userFrame k)) with
          current := some st.errs.length } := rfl

theorem scOpts_limit (L : ℤ) : (scOpts L).asyncTraceLimit = L := rfl

theorem scOpts_frame (L : ℤ) :
    (scOpts L).emptyFrame = Options.emptyFrame {} := rfl

theorem clen_one (L : ℤ) (hL : 0 ≤ L) : clen L 1 = 1 := by
  unfold clen
  split
  · rfl
  · split
    · rfl
    · omega

theorem clen_step_sever (L : ℤ) (hL : 0 < L) (N : Nat) (hN : 1 ≤ N)
    (hd : (L - 1 - 1).toNat < clen L N + 1) :
    clen L (N+1) = (L - 1 - 1).toNat + 1 := by
  unfold clen at hd ⊢
  by_cases h0 : L = 0
  · omega
  · simp only [if_neg h0] at hd ⊢
    by_cases h1 : L = 1
    · simp only [if_pos h1] at hd ⊢
      subst h1
      omega
    · simp only [if_neg h1] at hd ⊢
      omega

theorem clen_step_nosever (L : ℤ) (hL : 0 < L) (N : Nat) (hN : 1 ≤ N)
    (hd : ¬ (L - 1 - 1).toNat < clen L N + 1) :
    clen L (N+1) = clen L N + 1 := by
  unfold clen at hd ⊢
  by_cases h0 : L = 0
  · omega
  · simp only [if_neg h0] at hd ⊢
    by_cases h1 : L = 1
    · simp only [if_pos h1] at hd
      omega
    · simp only [if_neg h1] at hd ⊢
      omega

/-- Invariant of the nested scenario after N boundaries with the innermost
callback running: N snapshots each holding one application call site, no
caches yet, the innermost snapshot current, and the parent chain of the
innermost snapshot consisting of exactly the newest clen L N snapshots. -/
structure ChainInv (L : ℤ) (N : Nat) (st : St) : Prop where
  errsLen : st.errs.length = N
  framesLen : st.frames.length = N
  arrsNil : st.arrs = []
  cur : st.current = some (N-1)
  stackEq : ∀ j, j < N → (getErr st j).stack = [j]
  cachedNone : ∀ j, j < N → (getErr st j).cached = none
  msgEq : ∀ j, j < N → (getErr st j).msg = "Error"
  frameEq : ∀ j, j < N → getFrame st j = userFrame j
  chain : IsChain st (descList (N-1) (clen L N)) (some (N-1))

theorem chainInv_one (L : ℤ) (hL : 0 ≤ L) :
    ChainInv L 1 (chainSt (scOpts L) 1) := by
  have hchain1 : IsChain (captureSnapSt {} (userFrame 0)) [0] (some 0) :=
    ⟨rfl, rfl⟩
  have hbase :
      ChainInv L 1 { captureSnapSt {} (userFrame 0) with current := some 0 } := by
    refine ⟨rfl, rfl, rfl, rfl, ?_, ?_, ?_, ?_, ?_⟩
    · intro j hj
      interval_cases j
      rfl
    · intro j hj
      interval_cases j
      rfl
    · intro j hj
      interval_cases j
      rfl
    · intro j hj
      interval_cases j
      rfl
    · rw [clen_one L hL]
      exact ⟨rfl, rfl⟩
  show ChainInv L 1 (boundaryStep (scOpts L) {} 0)
  rw [boundaryStep_effect]
  simp only [scOpts_limit]
  by_cases hpos : 0 < L
  · rw [if_pos hpos]
    have htr : truncateChain (captureSnapSt {} (userFrame 0))
        (({} : St).errs.length) (L - 1) = captureSnapSt {} (userFrame 0) := by
      unfold truncateChain
      simp only [show ({} : St).errs.length = 0 from rfl]
      rw [limitWalk_eq_chainNth _ [0] _ _ _ hchain1 (by omega)]
      by_cases h1 : 1 < L - 1
      · simp only [chainNth, if_pos h1]
      · simp only [chainNth, if_neg h1]
        decide
    rw [htr]
    exact hbase
  · rw [if_neg hpos]
    exact hbase

/-- Helper: the boundary step preserves the invariant when the
chain-limiting step did not sever any link. -/
theorem chainInv_nochange (L : ℤ) (N : Nat) (hN : 1 ≤ N) (st : St)
    (inv : ChainInv L N st) (hnm : clen L (N+1) = clen L N + 1)
    (hchain2 : IsChain (captureSnapSt st (userFrame N))
      (descList N (clen L N + 1)) (some N)) :
    ChainInv L (N+1)
      { captureSnapSt st (userFrame N) with current := some N } := by
  have hget2lt : ∀ j, j < N →
      getErr (captureSnapSt st (userFrame N)) j = getErr st j := by
    intro j hj
    exact captureSnapSt_getErr_lt st _ j (by rw [inv.errsLen]; exact hj)
  have hgetNew : getErr (captureSnapSt st (userFrame N)) N = snapErr st := by
    have h := captureSnapSt_getErr_new st (userFrame N)
    rwa [inv.errsLen] at h
  refine ⟨?_, ?_, ?_, rfl, ?_, ?_, ?_, ?_, ?_⟩
  · simp [captureSnapSt, inv.errsLen]
  · simp [captureSnapSt, inv.framesLen]
  · simp [captureSnapSt, inv.arrsNil]
  · intro j hj
    rcases Nat.lt_succ_iff_lt_or_eq.mp hj with h | h
    · rw [show getErr { captureSnapSt st (userFrame N) with current := some N } j
          = getErr (captureSnapSt st (userFrame N)) j from rfl, hget2lt j h]
      exact inv.stackEq j h
    · rw [h]
      rw [show getErr { captureSnapSt st (userFrame N) with current := some N } N
          = getErr (captureSnapSt st (userFrame N)) N from rfl, hgetNew]
      simp [snapErr, inv.framesLen]
  · intro j hj
    rcases Nat.lt_succ_iff_lt_or_eq.mp hj with h | h
    · rw [show getErr { captureSnapSt st (userFrame N) with current := some N } j
          = getErr (captureSnapSt st (userFrame N)) j from rfl, hget2lt j h]
      exact inv.cachedNone j h
    · rw [h]
      rw [show getErr { captureSnapSt st (userFrame N) with current := some N } N
          = getErr (captureSnapSt st (userFrame N)) N from rfl, hgetNew]
      simp [snapErr]
  · intro j hj
    rcases Nat.lt_succ_iff_lt_or_eq.mp hj with h | h
    · rw [show getErr { captureSnapSt st (userFrame N) with current := some N } j
          = getErr (captureSnapSt st (userFrame N)) j from rfl, hget2lt j h]
      exact inv.msgEq j h
    · rw [h]
      rw [show getErr { captureSnapSt st (userFrame N) with current := some N } N
          = getErr (captureSnapSt st (userFrame N)) N from rfl, hgetNew]
      simp [snapErr]
  · intro j hj
    rcases Nat.lt_succ_iff_lt_or_eq.mp hj with h | h
    · rw [show getFrame { captureSnapSt st (userFrame N) with current := some N } j
          = getFrame (captureSnapSt st (userFrame N)) j from rfl,
        captureSnapSt_getFrame_lt st _ j (by rw [inv.framesLen]; exact h)]
      exact inv.frameEq j h
    · rw [h]
      rw [show getFrame { captureSnapSt st (userFrame N) with current := some N } N
          = getFrame (captureSnapSt st (userFrame N)) N from rfl]
      have h2 := captureSnapSt_getFrame_new st (userFrame N)
      rwa [inv.framesLen] at h2
  · simp only [Nat.add_sub_cancel]
    rw [hnm]
    exact IsChain_congr (captureSnapSt st (userFrame N)) _ _ _
      (fun j _ => rfl) hchain2

/-- Helper: one boundary step preserves the scenario invariant. -/
theorem chainInv_step (L : ℤ) (hL : 0 ≤ L) (N : Nat) (hN : 1 ≤ N) (st : St)
    (inv : ChainInv L N st) :
    ChainInv L (N+1) (boundaryStep (scOpts L) st N) := by
  have hm1 : 1 ≤ clen L N := clen_pos L hL N hN
  have hmN : clen L N ≤ N := clen_le L N hN
  have hget2lt : ∀ j, j < N →
      getErr (captureSnapSt st (userFrame N)) j = getErr st j := by
    intro j hj
    exact captureSnapSt_getErr_lt st _ j (by rw [inv.errsLen]; exact hj)
  have hgetNew : getErr (captureSnapSt st (userFrame N)) N = snapErr st := by
    have h := captureSnapSt_getErr_new st (userFrame N)
    rwa [inv.errsLen] at h
  have hparNew : (snapErr st).parent = some (N-1) := by
    simp [snapErr, inv.cur]
  have hmemlt : ∀ j, j ∈ descList (N-1) (clen L N) → j < N := by
    intro j hj
    rw [descList_mem _ _ _ (by omega)] at hj
    omega
  have hchain2 : IsChain (captureSnapSt st (userFrame N))
      (descList N (clen L N + 1)) (some N) := by
    refine ⟨rfl, ?_⟩
    rw [hgetNew, hparNew]
    exact IsChain_congr st _ _ _ (fun j hj => hget2lt j (hmemlt j hj)) inv.chain
  rw [boundaryStep_effect]
  simp only [scOpts_limit, inv.errsLen]
  by_cases hpos : 0 < L
  · rw [if_pos hpos]
    unfold truncateChain
    rw [limitWalk_eq_chainNth _ (descList N (clen L N + 1))
      ((L-1).toNat + 1) (some N) (L-1) hchain2 (by omega)]
    rw [chainNth_desc]
    by_cases hd : (L - 1 - 1).toNat < clen L N + 1
    · rw [if_pos hd]
      show ChainInv L (N+1)
        { setErrParent (captureSnapSt st (userFrame N))
            (N - (L-1-1).toNat) none with current := some N }
      have hdm : (L - 1 - 1).toNat ≤ clen L N := by omega
      have hdN : (L - 1 - 1).toNat ≤ N := le_trans hdm hmN
      have hnm : clen L (N+1) = (L - 1 - 1).toNat + 1 :=
        clen_step_sever L hpos N hN hd
      have hlenN : N - (L - 1 - 1).toNat
          < (captureSnapSt st (userFrame N)).errs.length := by
        have : (captureSnapSt st (userFrame N)).errs.length = N + 1 := by
          simp [captureSnapSt, inv.errsLen]
        omega
      refine ⟨?_, ?_, ?_, rfl, ?_, ?_, ?_, ?_, ?_⟩
      · simp [setErrParent, captureSnapSt, inv.errsLen]
      · simp [setErrParent, captureSnapSt, inv.framesLen]
      · simp [setErrParent, captureSnapSt, inv.arrsNil]
      · intro j hj
        have hf := getErr_setErrParent_fields (captureSnapSt st (userFrame N))
          (N - (L-1-1).toNat) j none
        refine hf.1.trans ?_
        rcases Nat.lt_succ_iff_lt_or_eq.mp hj with h | h
        · rw [hget2lt j h]
          exact inv.stackEq j h
        · rw [h, hgetNew]
          simp [snapErr, inv.framesLen]
      · intro j hj
        have hf := getErr_setErrParent_fields (captureSnapSt st (userFrame N))
          (N - (L-1-1).toNat) j none
        refine hf.2.1.trans ?_
        rcases Nat.lt_succ_iff_lt_or_eq.mp hj with h | h
        · rw [hget2lt j h]
          exact inv.cachedNone j h
        · rw [h, hgetNew]
          simp [snapErr]
      · intro j hj
        have hf := getErr_setErrParent_fields (captureSnapSt st (userFrame N))
          (N - (L-1-1).toNat) j none
        refine hf.2.2.trans ?_
        rcases Nat.lt_succ_iff_lt_or_eq.mp hj with h | h
        · rw [hget2lt j h]
          exact inv.msgEq j h
        · rw [h, hgetNew]
          simp [snapErr]
      · intro j hj
        show getFrame (captureSnapSt st (userFrame N)) j = userFrame j
        rcases Nat.lt_succ_iff_lt_or_eq.mp hj with h | h
        · rw [captureSnapSt_getFrame_lt st _ j (by rw [inv.framesLen]; exact h)]
          exact inv.frameEq j h
        · rw [h]
          have h2 := captureSnapSt_getFrame_new st (userFrame N)
          rwa [inv.framesLen] at h2
      · simp only [Nat.add_sub_cancel]
        rw [hnm]
        refine IsChain_desc_intro _ _ N (by omega) ?_ ?_
        · intro i hi
          have hne : N - (L-1-1).toNat ≠ N - i := by omega
          rw [show getErr
              { setErrParent (captureSnapSt st (userFrame N))
                  (N - (L-1-1).toNat) none with current := some N } (N - i)
              = getErr (setErrParent (captureSnapSt st (userFrame N))
                  (N - (L-1-1).toNat) none) (N - i) from rfl,
            getErr_setErrParent_ne _ _ _ _ hne]
          cases i with
          | zero =>
            simp only [Nat.sub_zero]
            rw [hgetNew, hparNew]
          | succ i2 =>
            rw [hget2lt (N - (i2+1)) (by omega)]
            have h2 := (IsChain_desc_elim (clen L N) st (N-1) hm1 inv.chain).1
              i2 (by omega)
            rw [show N - 1 - i2 = N - (i2+1) from by omega] at h2
            exact h2
        · simp only [Nat.add_sub_cancel]
          rw [show getErr
              { setErrParent (captureSnapSt st (userFrame N))
                  (N - (L-1-1).toNat) none with current := some N }
                (N - (L-1-1).toNat)
              = getErr (setErrParent (captureSnapSt st (userFrame N))
                  (N - (L-1-1).toNat) none) (N - (L-1-1).toNat) from rfl,
            getErr_setErrParent_self _ _ _ hlenN]
    · rw [if_neg hd]
      show ChainInv L (N+1)
        { captureSnapSt st (userFrame N) with current := some N }
      exact chainInv_nochange L N hN st inv
        (clen_step_nosever L hpos N hN hd) hchain2
  · rw [if_neg hpos]
    have hL0 : L = 0 := by omega
    show ChainInv L (N+1)
      { captureSnapSt st (userFrame N) with current := some N }
    refine chainInv_nochange L N hN st inv ?_ hchain2
    subst hL0
    unfold clen
    simp

/-- Helper: the scenario invariant holds after every positive number of
boundaries. -/
theorem chainInv_holds (L : ℤ) (hL : 0 ≤ L) (N : Nat) (hN : 1 ≤ N) :
    ChainInv L N (chainSt (scOpts L) N) := by
  induction N with
  | zero => exact absurd hN (by omega)
  | succ n ih =>
    cases n with
    | zero => exact chainInv_one L hL
    | succ n2 =>
      exact chainInv_step L hL (n2+1) (by omega) _ (ih (by omega))

/-- Helper: the cache-hit equation of processStackTrace. -/
theorem processStackTrace_hit (fuel : Nat) (st : St) (e : Nat)
    (stack : List Nat) (recursing : Bool) (r : Nat)
    (h : (getErr st e).cached = some r) :
    processStackTrace (fuel+1) st e stack recursing = (st, r) := by
  rw [processStackTrace, h]

/-- Helper: the cache-miss, root equation of processStackTrace. -/
theorem processStackTrace_root (fuel : Nat) (st : St) (e : Nat)
    (stack : List Nat) (recursing : Bool)
    (h : (getErr st e).cached = none)
    (hp : (getErr (stAfterParent st e stack recursing) e).parent = none) :
    processStackTrace (fuel+1) st e stack recursing
      = (stAfterParent st e stack recursing, st.arrs.length) := by
  rw [processStackTrace, h, hp]

/-- Helper: the cache-miss, nonempty-parent equation of processStackTrace. -/
theorem processStackTrace_parent (fuel : Nat) (st : St) (e : Nat)
    (stack : List Nat) (recursing : Bool) (p : Nat) (st2 : St) (r2 : Nat)
    (h : (getErr st e).cached = none)
    (hp : (getErr (stAfterParent st e stack recursing) e).parent = some p)
    (hrec : processStackTrace fuel (stAfterParent st e stack recursing) p
      (getErr (stAfterParent st e stack recursing) p).stack true = (st2, r2))
    (hpa : getArr st2 r2 ≠ []) :
    processStackTrace (fuel+1) st e stack recursing
      = (appendArr st2 st.arrs.length (none :: getArr st2 r2),
         st.arrs.length) := by
  rw [processStackTrace, h, hp]
  simp only [hrec]
  rw [if_pos hpa]

/-- Helper: the frame-caching loop on a single external call site fills the
fresh cache array with exactly that call site. -/
theorem stAfterLoop_single (st : St) (e : Nat) (x : Nat)
    (hc : (getFrame st x).fileName ≠ dsFilename) :
    stAfterLoop st e [x]
      = setArr (setErrCached { st with arrs := st.arrs ++ [[]] } e
          (some st.arrs.length)) st.arrs.length [some x] := by
  unfold stAfterLoop
  have hc2 : (getFrame (setErrCached { st with arrs := st.arrs ++ [[]] } e
      (some st.arrs.length)) x).fileName ≠ dsFilename := hc
  simp only [cacheFrames, if_pos hc2]
  have hga : getArr (setErrCached { st with arrs := st.arrs ++ [[]] } e
      (some st.arrs.length)) st.arrs.length = [] := by
    show (st.arrs ++ [[]]).getD st.arrs.length [] = []
    rw [List.getD_append_right _ _ _ _ (le_refl _)]
    simp
  rw [pushArr, hga]
  rfl

/-- Helper: a recursing call never assigns a parent. -/
theorem stAfterParent_true (st : St) (e : Nat) (stack : List Nat) :
    stAfterParent st e stack true = stAfterLoop st e stack := by
  unfold stAfterParent
  rw [if_neg (by simp)]

theorem chainEntries_ne_nil (x : Nat) (l : List Nat) :
    chainEntries (x :: l) ≠ [] := by
  cases l <;> simp [chainEntries]

theorem countNone_chainEntries (x : Nat) (l : List Nat) :
    countNone (chainEntries (x :: l)) = l.length := by
  induction l generalizing x with
  | nil => rfl
  | cons y ys ih =>
    show countNone (some x :: none :: chainEntries (y :: ys)) = ys.length + 1
    simp only [countNone, ih y]

/-- Chain members are clean: uncached, with a singleton raw stack holding
their own application call site, and a valid index. -/
def CleanChain (st : St) (l : List Nat) : Prop :=
  ∀ j ∈ l, (getErr st j).cached = none ∧ (getErr st j).stack = [j] ∧
    (getFrame st j).fileName ≠ dsFilename ∧ j < st.errs.length

/-- Helper: flattening a clean chain produces exactly the interleaved
chain entries, touching no state outside the chain and no older cache
array. -/
theorem processChain : ∀ (l : List Nat) (st : St) (x : Nat) (fuel : Nat),
    IsChain st (x :: l) (some x) →
    CleanChain st (x :: l) →
    (x :: l).Nodup →
    l.length < fuel →
    ∃ st2 : St,
      processStackTrace fuel st x [x] true = (st2, st.arrs.length) ∧
      getArr st2 st.arrs.length = chainEntries (x :: l) ∧
      st2.frames = st.frames ∧
      st2.current = st.current ∧
      st2.errs.length = st.errs.length ∧
      (∀ j, j ∉ x :: l → getErr st2 j = getErr st j) ∧
      (∀ j, (getErr st2 j).msg = (getErr st j).msg) ∧
      (∀ r2, r2 < st.arrs.length → getArr st2 r2 = getArr st r2) ∧
      st.arrs.length < st2.arrs.length := by
  intro l
  induction l with
  | nil =>
    intro st x fuel hchain hclean hnodup hfuel
    cases fuel with
    | zero => omega
    | succ f =>
      have hx := hclean x (List.mem_cons_self x [])
      have hSAP : stAfterParent st x [x] true
          = setArr (setErrCached { st with arrs := st.arrs ++ [[]] } x
              (some st.arrs.length)) st.arrs.length [some x] := by
        rw [stAfterParent_true, stAfterLoop_single st x x hx.2.2.1]
      have hgetx : getErr (stAfterParent st x [x] true) x
          = { getErr st x with cached := some st.arrs.length } := by
        rw [hSAP]
        show getErr (setErrCached { st with arrs := st.arrs ++ [[]] } x
          (some st.arrs.length)) x = _
        exact getErr_setErrCached_self _ _ _ hx.2.2.2
      have hpar : (getErr (stAfterParent st x [x] true) x).parent = none := by
        rw [hgetx]
        exact hchain.2
      refine ⟨stAfterParent st x [x] true,
        processStackTrace_root f st x [x] true hx.1 hpar, ?_, ?_, ?_, ?_,
        ?_, ?_, ?_, ?_⟩
      · rw [hSAP]
        rw [show getArr (setArr (setErrCached { st with
            arrs := st.arrs ++ [[]] } x (some st.arrs.length))
            st.arrs.length [some x]) st.arrs.length
          = [some x] from getArr_setArr_self _ _ _ (by simp [setErrCached])]
        rfl
      · rw [hSAP]; rfl
      · rw [hSAP]; rfl
      · rw [hSAP]
        simp [setArr, setErrCached]
      · intro j hj
        rw [hSAP]
        have hne : x ≠ j := by
          intro he
          exact hj (he ▸ List.mem_cons_self x [])
        show getErr (setErrCached { st with arrs := st.arrs ++ [[]] } x
          (some st.arrs.length)) j = getErr st j
        rw [getErr_setErrCached_ne _ _ _ _ hne]
        rfl
      · intro j
        rw [hSAP]
        have hf := fun hlt => getErr_setErrCached_self
          ({ st with arrs := st.arrs ++ [[]] } : St) x
          (some st.arrs.length) hlt
        by_cases he : x = j
        · subst he
          rw [show getErr (setArr (setErrCached { st with
              arrs := st.arrs ++ [[]] } x (some st.arrs.length))
              st.arrs.length [some x]) x
            = { getErr st x with cached := some st.arrs.length } from
            hf hx.2.2.2]
        · show (getErr (setErrCached { st with arrs := st.arrs ++ [[]] } x
            (some st.arrs.length)) j).msg = _
          rw [getErr_setErrCached_ne _ _ _ _ he]
          rfl
      · intro r2 hr2
        rw [hSAP]
        show getArr (setArr (setErrCached { st with arrs := st.arrs ++ [[]] }
          x (some st.arrs.length)) st.arrs.length [some x]) r2 = getArr st r2
        rw [getArr_setArr_ne _ _ _ _ (by omega)]
        show (st.arrs ++ [[]]).getD r2 [] = st.arrs.getD r2 []
        exact List.getD_append _ _ _ _ hr2
      · rw [hSAP]
        simp [setArr, setErrCached]
  | cons y ys ih =>
    intro st x fuel hchain hclean hnodup hfuel
    cases fuel with
    | zero => exact absurd hfuel (by omega)
    | succ f =>
      have hx := hclean x (List.mem_cons_self x _)
      have hxy : x ∉ y :: ys := by
        have := hnodup
        rw [List.nodup_cons] at this
        exact this.1
      have hSAP : stAfterParent st x [x] true
          = setArr (setErrCached { st with arrs := st.arrs ++ [[]] } x
              (some st.arrs.length)) st.arrs.length [some x] := by
        rw [stAfterParent_true, stAfterLoop_single st x x hx.2.2.1]
      have hgetSAP : ∀ j, j ≠ x → getErr (stAfterParent st x [x] true) j
          = getErr st j := by
        intro j hj
        rw [hSAP]
        show getErr (setErrCached { st with arrs := st.arrs ++ [[]] } x
          (some st.arrs.length)) j = getErr st j
        rw [getErr_setErrCached_ne _ _ _ _ (fun he => hj he.symm)]
        rfl
      have hgetx : getErr (stAfterParent st x [x] true) x
          = { getErr st x with cached := some st.arrs.length } := by
        rw [hSAP]
        show getErr (setErrCached { st with arrs := st.arrs ++ [[]] } x
          (some st.arrs.length)) x = _
        exact getErr_setErrCached_self _ _ _ hx.2.2.2
      have hpar : (getErr (stAfterParent st x [x] true) x).parent = some y := by
        rw [hgetx]
        show (getErr st x).parent = some y
        exact hchain.2.1
      have hlenSAP : (stAfterParent st x [x] true).errs.length
          = st.errs.length := by
        rw [hSAP]
        simp [setArr, setErrCached]
      have harrSAP : (stAfterParent st x [x] true).arrs.length
          = st.arrs.length + 1 := by
        rw [hSAP]
        simp [setArr, setErrCached]
      have hchainY : IsChain (stAfterParent st x [x] true) (y :: ys)
          (some y) := by
        refine IsChain_congr st _ _ _ ?_ ⟨rfl, hchain.2.2⟩
        intro j hj
        refine hgetSAP j ?_
        intro he
        subst he
        exact hxy hj
      have hcleanY : CleanChain (stAfterParent st x [x] true) (y :: ys) := by
        intro j hj
        have hne : j ≠ x := fun he => hxy (he ▸ hj)
        have hcl := hclean j (List.mem_cons_of_mem x hj)
        refine ⟨?_, ?_, ?_, ?_⟩
        · rw [hgetSAP j hne]
          exact hcl.1
        · rw [hgetSAP j hne]
          exact hcl.2.1
        · rw [hSAP]
          exact hcl.2.2.1
        · rw [hlenSAP]
          exact hcl.2.2.2
      have hstacky : (getErr (stAfterParent st x [x] true) y).stack = [y] := by
        rw [hgetSAP y (fun he => hxy (he ▸ List.mem_cons_self y ys))]
        exact (hclean y (List.mem_cons_of_mem x (List.mem_cons_self y ys))).2.1
      obtain ⟨st2, hrec, harr, hfr, hcur, hlen, hout, hmsg, hpres, hgrow⟩ :=
        ih (stAfterParent st x [x] true) y f hchainY hcleanY
          ((List.nodup_cons.mp hnodup).2)
          (by simp only [List.length_cons] at hfuel; omega)
      rw [harrSAP] at hrec harr hpres hgrow
      have hmain : processStackTrace (f+1) st x [x] true
          = (appendArr st2 st.arrs.length
              (none :: getArr st2 (st.arrs.length + 1)), st.arrs.length) := by
        refine processStackTrace_parent f st x [x] true y st2
          (st.arrs.length + 1) hx.1 hpar ?_ ?_
        · rw [hstacky]
          exact hrec
        · rw [harr]
          exact chainEntries_ne_nil y ys
      have harrx : getArr st2 st.arrs.length = [some x] := by
        rw [hpres st.arrs.length (by omega)]
        rw [hSAP]
        exact getArr_setArr_self _ _ _ (by simp [setErrCached])
      refine ⟨appendArr st2 st.arrs.length
          (none :: getArr st2 (st.arrs.length + 1)), hmain, ?_, ?_, ?_, ?_,
          ?_, ?_, ?_, ?_⟩
      · show getArr (setArr st2 st.arrs.length
          (getArr st2 st.arrs.length
            ++ (none :: getArr st2 (st.arrs.length + 1)))) st.arrs.length = _
        rw [getArr_setArr_self _ _ _ (by omega), harrx, harr]
        rfl
      · show st2.frames = st.frames
        rw [hfr, hSAP]
        rfl
      · show st2.current = st.current
        rw [hcur, hSAP]
        rfl
      · show st2.errs.length = st.errs.length
        rw [hlen, hlenSAP]
      · intro j hj
        show getErr st2 j = getErr st j
        rw [hout j (fun hm => hj (List.mem_cons_of_mem x hm))]
        exact hgetSAP j (fun he => hj (he ▸ List.mem_cons_self x (y :: ys)))
      · intro j
        show (getErr st2 j).msg = (getErr st j).msg
        rw [hmsg j]
        by_cases he : j = x
        · subst he
          rw [hgetx]
        · rw [hgetSAP j he]
      · intro r2 hr2
        show getArr (setArr st2 st.arrs.length _) r2 = getArr st r2
        rw [getArr_setArr_ne _ _ _ _ (by omega)]
        rw [hpres r2 (by omega)]
        rw [hSAP]
        rw [getArr_setArr_ne _ _ _ _ (by omega)]
        show (st.arrs ++ [[]]).getD r2 [] = st.arrs.getD r2 []
        exact List.getD_append _ _ _ _ hr2
      · show st.arrs.length < (setArr st2 st.arrs.length _).arrs.length
        simp only [setArr, List.length_set]
        omega

theorem countTok_append (sep : String) (a b : List String) :
    countTok sep (a ++ b) = countTok sep a + countTok sep b := by
  induction a with
  | nil =>
    show countTok sep b = 0 + countTok sep b
    omega
  | cons s rest ih =>
    show (if s = sep then 1 else 0) + countTok sep (rest ++ b)
      = ((if s = sep then 1 else 0) + countTok sep rest) + countTok sep b
    rw [ih]
    omega

theorem countTok_insertAt (sep : String) (l : List String) (i : Nat) :
    countTok sep (insertAt l i sep) = countTok sep l + 1 := by
  have h2 : countTok sep l
      = countTok sep (l.take i) + countTok sep (l.drop i) := by
    conv_lhs => rw [← List.take_append_drop i l]
    rw [countTok_append]
  show countTok sep (l.take i ++ sep :: l.drop i) = _
  rw [countTok_append, h2]
  show countTok sep (l.take i)
    + ((if sep = sep then 1 else 0) + countTok sep (l.drop i)) = _
  rw [if_pos rfl]
  omega

theorem countTok_insertSeps (sep : String) :
    ∀ (idxs : List Nat) (lines : List String),
    countTok sep (insertSeps sep lines idxs)
      = countTok sep lines + idxs.length := by
  intro idxs
  induction idxs with
  | nil => intro lines; rfl
  | cons i rest ih =>
    intro lines
    show countTok sep (insertSeps sep (insertAt lines (i+1) sep) rest) = _
    rw [ih, countTok_insertAt]
    simp only [List.length_cons]
    omega

theorem sepIdx_length (l : List Entry) :
    ∀ i, (sepIdx l i).length = countNone l := by
  induction l with
  | nil => intro i; rfl
  | cons en rest ih =>
    intro i
    cases en with
    | none => simp only [sepIdx, countNone, List.length_cons, ih]
    | some f => simp only [sepIdx, countNone, ih]

/-- Helper: no string starting with the four-space at marker equals the
default separator token. -/
theorem atPrefix_ne_sep (s t : String) :
    ("    at " ++ s) ++ t ≠ Options.emptyFrame {} := by
  intro h
  have h2 := congrArg String.data h
  rw [String.data_append, String.data_append] at h2
  have hL : (("    at ".data ++ s.data) ++ t.data).head? = some ' ' := rfl
  rw [h2] at hL
  exact absurd hL (by decide)

theorem frameLine_ne_sep (st : St) (f : Nat) :
    frameLine st f ≠ Options.emptyFrame {} :=
  atPrefix_ne_sep _ _

theorem countTok_origPrepareLines (st : St) (e : Nat) (entries : List Entry)
    (hmsg : (getErr st e).msg ≠ Options.emptyFrame {}) :
    countTok (Options.emptyFrame {}) (origPrepareLines st e entries) = 0 := by
  show (if (getErr st e).msg = Options.emptyFrame {} then 1 else 0)
    + countTok (Options.emptyFrame {}) (entries.map (fun en => match en with
      | some f => frameLine st f
      | none => "null")) = 0
  rw [if_neg hmsg]
  induction entries with
  | nil => rfl
  | cons en rest ih =>
    cases en with
    | some f =>
      show 0 + ((if frameLine st f = Options.emptyFrame {} then 1 else 0)
        + countTok (Options.emptyFrame {}) (rest.map (fun en => match en with
          | some f => frameLine st f
          | none => "null"))) = 0
      rw [if_neg (frameLine_ne_sep st f)]
      omega
    | none =>
      show 0 + ((if ("null" : String) = Options.emptyFrame {} then 1 else 0)
        + countTok (Options.emptyFrame {}) (rest.map (fun en => match en with
          | some f => frameLine st f
          | none => "null"))) = 0
      rw [if_neg (show ("null" : String) ≠ Options.emptyFrame {} from
        by decide)]
      omega

/-- Helper: the top-level parent assignment branch of processStackTrace. -/
theorem stAfterParent_assign (st : St) (e : Nat) (stack : List Nat)
    (hp : (getErr (stAfterLoop st e stack) e).parent = none) :
    stAfterParent st e stack false
      = setErrParent (stAfterLoop st e stack) e
          (stAfterLoop st e stack).current := by
  unfold stAfterParent
  rw [if_pos ⟨hp, rfl⟩]

theorem errsLen_setErrCached (st : St) (i : Nat) (c : Option Nat) :
    (setErrCached st i c).errs.length = st.errs.length := by
  simp [setErrCached]

theorem errsLen_setErrParent (st : St) (i : Nat) (p : Option Nat) :
    (setErrParent st i p).errs.length = st.errs.length := by
  simp [setErrParent]

/-- Helper: the rendered lines of prepareStackTrace, given the flattening
result. -/
theorem prepareStackTrace_lines (opts : Options) (st : St) (e : Nat)
    (stack : List Nat) (st4 : St) (r : Nat)
    (h : processStackTrace (st.errs.length + 1) st e stack false = (st4, r)) :
    (prepareStackTrace opts st e stack).2
      = insertSeps opts.emptyFrame
          (origPrepareLines (setArr st4 r (filterSome (getArr st4 r))) e
            (filterSome (getArr st4 r)))
          (sepIdx (getArr st4 r) 0) := by
  simp only [prepareStackTrace]
  rw [h]

/-- Helper: the separator-token count of the nested-scenario trace equals
the surviving chain length left by the chain-limiting step. -/
theorem nestedTrace_count (L : ℤ) (hL : 0 ≤ L) (N : Nat) (hN : 1 ≤ N) :
    countTok (Options.emptyFrame {}) (nestedTrace L N) = clen L N := by
  have inv := chainInv_holds L hL N hN
  have hm1 : 1 ≤ clen L N := clen_pos L hL N hN
  have hmN : clen L N ≤ N := clen_le L N hN
  obtain ⟨m2, hm2⟩ : ∃ m2, clen L N = m2 + 1 := ⟨clen L N - 1, by omega⟩
  unfold nestedTrace raiseInnermost
  set st := chainSt (scOpts L) N with hstdef
  rw [inv.errsLen, inv.framesLen]
  have hr_err_lt : ∀ j, j < N → getErr (raisedSt st) j = getErr st j := by
    intro j hj
    show (st.errs ++ _).getD j {} = st.errs.getD j {}
    exact List.getD_append _ _ _ _ (by rw [inv.errsLen]; exact hj)
  have hr_err_new : getErr (raisedSt st) N
      = { msg := "Error: boom", stack := [st.frames.length] } := by
    show (st.errs
      ++ [({ msg := "Error: boom", stack := [st.frames.length] }
        : ErrObj)]).getD N {} = _
    rw [List.getD_append_right _ _ _ _ (le_of_eq inv.errsLen)]
    rw [inv.errsLen]
    simp
  have hlenR : (raisedSt st).errs.length = N + 1 := by
    show (st.errs ++ _).length = N + 1
    simp [inv.errsLen]
  have harrs0 : (raisedSt st).arrs = [] := inv.arrsNil
  have hfr_new : getFrame (raisedSt st) N
      = { fileName := "app.js", text := "throwsite" } := by
    show (st.frames ++ _).getD N _ = _
    rw [List.getD_append_right _ _ _ _ (le_of_eq inv.framesLen)]
    rw [inv.framesLen]
    simp
  have hfileE : (getFrame (raisedSt st) N).fileName ≠ dsFilename := by
    rw [hfr_new]
    decide
  have hframe_lt : ∀ j, j < N → getFrame (raisedSt st) j = userFrame j := by
    intro j hj
    show (st.frames ++ _).getD j _ = _
    rw [List.getD_append _ _ _ _ (by rw [inv.framesLen]; exact hj)]
    exact inv.frameEq j hj
  have hloop : stAfterLoop (raisedSt st) N [N]
      = setArr (setErrCached { raisedSt st with arrs := [[]] } N (some 0))
          0 [some N] := by
    rw [stAfterLoop_single (raisedSt st) N N hfileE]
    rw [harrs0]
    rfl
  have hlencast : ({ raisedSt st with arrs := ([[]] : List (List Entry)) }
      : St).errs.length = N + 1 := hlenR
  have hparent_loop :
      (getErr (stAfterLoop (raisedSt st) N [N]) N).parent = none := by
    rw [hloop]
    show (getErr (setErrCached { raisedSt st with arrs := [[]] } N
      (some 0)) N).parent = none
    rw [getErr_setErrCached_self _ _ _ (by rw [hlencast]; omega)]
    show (getErr (raisedSt st) N).parent = none
    rw [hr_err_new]
  have hcur_loop : (stAfterLoop (raisedSt st) N [N]).current
      = some (N-1) := by
    rw [hloop]
    show st.current = some (N-1)
    exact inv.cur
  have hSAP2 : stAfterParent (raisedSt st) N [N] false
      = setErrParent (stAfterLoop (raisedSt st) N [N]) N (some (N-1)) := by
    rw [stAfterParent_assign _ _ _ hparent_loop, hcur_loop]
  have hlenLoop : (stAfterLoop (raisedSt st) N [N]).errs.length = N + 1 := by
    rw [hloop]
    show (setErrCached { raisedSt st with arrs := [[]] } N
      (some 0)).errs.length = N + 1
    rw [errsLen_setErrCached]
    exact hlencast
  have hS_lt : ∀ j, j < N →
      getErr (stAfterParent (raisedSt st) N [N] false) j = getErr st j := by
    intro j hj
    rw [hSAP2]
    rw [getErr_setErrParent_ne _ _ _ _ (by omega)]
    rw [hloop]
    show getErr (setErrCached { raisedSt st with arrs := [[]] } N
      (some 0)) j = _
    rw [getErr_setErrCached_ne _ _ _ _ (by omega)]
    show getErr (raisedSt st) j = _
    exact hr_err_lt j hj
  have hS_parentN :
      (getErr (stAfterParent (raisedSt st) N [N] false) N).parent
        = some (N-1) := by
    rw [hSAP2]
    rw [getErr_setErrParent_self _ _ _ (by rw [hlenLoop]; omega)]
  have hchainS : IsChain (stAfterParent (raisedSt st) N [N] false)
      (descList (N-1) (clen L N)) (some (N-1)) := by
    refine IsChain_congr st _ _ _ ?_ inv.chain
    intro j hj
    refine hS_lt j ?_
    rw [descList_mem _ _ _ (by omega)] at hj
    omega
  have hlenS : (stAfterParent (raisedSt st) N [N] false).errs.length
      = N + 1 := by
    rw [hSAP2, errsLen_setErrParent, hlenLoop]
  have hcleanS : CleanChain (stAfterParent (raisedSt st) N [N] false)
      (descList (N-1) (clen L N)) := by
    intro j hj
    have hjN : j < N := by
      rw [descList_mem _ _ _ (by omega)] at hj
      omega
    refine ⟨?_, ?_, ?_, ?_⟩
    · rw [hS_lt j hjN]
      exact inv.cachedNone j hjN
    · rw [hS_lt j hjN]
      exact inv.stackEq j hjN
    · rw [hSAP2]
      show (getFrame (stAfterLoop (raisedSt st) N [N]) j).fileName
        ≠ dsFilename
      rw [hloop]
      show (getFrame (raisedSt st) j).fileName ≠ dsFilename
      rw [hframe_lt j hjN]
      show ("app.js" : String) ≠ dsFilename
      decide
    · rw [hlenS]
      omega
  rw [hm2] at hchainS hcleanS
  obtain ⟨st3, hrec3, harr3, hfr3, hcur3, hlen3, hout3, hmsg3, hpres3,
      hgrow3⟩ :=
    processChain (descList (N-2) m2) (stAfterParent (raisedSt st) N [N] false)
      (N-1) ((raisedSt st).errs.length) hchainS hcleanS
      (descList_nodup (m2+1) (N-1) (by omega))
      (by rw [descList_length, hlenR]; omega)
  have harrsS : (stAfterParent (raisedSt st) N [N] false).arrs
      = [[some N]] := by
    rw [hSAP2]
    show (stAfterLoop (raisedSt st) N [N]).arrs = [[some N]]
    rw [hloop]
    rfl
  have harrsSlen : (stAfterParent (raisedSt st) N [N] false).arrs.length
      = 1 := by
    rw [harrsS]
    rfl
  rw [harrsSlen] at hrec3 harr3 hpres3 hgrow3
  have hstackS :
      (getErr (stAfterParent (raisedSt st) N [N] false) (N-1)).stack
        = [N-1] := by
    rw [hS_lt (N-1) (by omega)]
    exact inv.stackEq (N-1) (by omega)
  have hcachedE : (getErr (raisedSt st) N).cached = none := by
    rw [hr_err_new]
  have hmain : processStackTrace ((raisedSt st).errs.length + 1)
      (raisedSt st) N [N] false
      = (appendArr st3 (raisedSt st).arrs.length (none :: getArr st3 1),
         (raisedSt st).arrs.length) := by
    refine processStackTrace_parent ((raisedSt st).errs.length)
      (raisedSt st) N [N] false (N-1) st3 1 hcachedE hS_parentN ?_ ?_
    · rw [hstackS]
      exact hrec3
    · rw [harr3]
      exact chainEntries_ne_nil _ _
  have harr0len : (raisedSt st).arrs.length = 0 := by
    rw [harrs0]
    rfl
  rw [harr0len] at hmain
  have hgS0 : getArr (stAfterParent (raisedSt st) N [N] false) 0
      = [some N] := by
    unfold getArr
    rw [harrsS]
    rfl
  have hcomb : getArr (appendArr st3 0 (none :: getArr st3 1)) 0
      = some N :: none :: chainEntries ((N-1) :: descList (N-2) m2) := by
    show getArr (setArr st3 0 (getArr st3 0 ++ (none :: getArr st3 1))) 0 = _
    rw [getArr_setArr_self _ _ _ (by omega)]
    rw [harr3]
    rw [hpres3 0 (by omega)]
    rw [hgS0]
    rfl
  have hmsgE : (getErr st3 N).msg = "Error: boom" := by
    rw [hmsg3 N]
    rw [hSAP2]
    rw [show (getErr (setErrParent (stAfterLoop (raisedSt st) N [N]) N
        (some (N-1))) N).msg
        = (getErr (stAfterLoop (raisedSt st) N [N]) N).msg from
      (getErr_setErrParent_fields _ _ _ _).2.2]
    rw [hloop]
    show (getErr (setErrCached { raisedSt st with arrs := [[]] } N
      (some 0)) N).msg = _
    rw [getErr_setErrCached_self _ _ _ (by rw [hlencast]; omega)]
    show (getErr (raisedSt st) N).msg = _
    rw [hr_err_new]
  rw [prepareStackTrace_lines (scOpts L) (raisedSt st) N [N]
    (appendArr st3 0 (none :: getArr st3 1)) 0 hmain]
  simp only [scOpts_frame]
  rw [hcomb]
  have hmsg5 : (getErr (setArr (appendArr st3 0 (none :: getArr st3 1)) 0
      (filterSome (some N :: none
        :: chainEntries ((N-1) :: descList (N-2) m2)))) N).msg
      ≠ Options.emptyFrame {} := by
    show (getErr st3 N).msg ≠ Options.emptyFrame {}
    rw [hmsgE]
    decide
  rw [countTok_insertSeps, sepIdx_length]
  rw [countTok_origPrepareLines _ _ _ hmsg5]
  show 0 + (countNone (chainEntries ((N-1) :: descList (N-2) m2)) + 1)
    = clen L N
  rw [countNone_chainEntries, descList_length]
  omega

/-- C1 counterexample: with limit 2 and a chain of 2 nested scheduling
boundaries (N equals L, so the claim demands exactly 2 separator tokens),
the rendered trace contains only 1: the chain-limiting step deletes the
new snapshot's own parent link whenever the limit is 2. -/
theorem trace_sep_count_cx :
    (2 : Nat) ≤ 2 ∧
    countTok (Options.emptyFrame {}) (nestedTrace 2 2) ≠ 2 := by
  refine ⟨le_refl 2, ?_⟩
  rw [nestedTrace_count 2 (by decide) 2 (by decide)]
  decide

/-- C1 (amended): for a chain of N nested scheduling boundaries under a
positive limit L, the rendered trace contains exactly min N (L-1)
separator tokens when L is at least 2, and exactly 1 separator token when
L is 1, for every N. -/
theorem trace_sep_count_limited (L : ℤ) (N : Nat) (hL : 1 ≤ L)
    (hN : 1 ≤ N) :
    countTok (Options.emptyFrame {}) (nestedTrace L N)
      = if L = 1 then 1 else min N (L - 1).toNat := by
  rw [nestedTrace_count L (by omega) N hN]
  unfold clen
  rw [if_neg (by omega)]

/-- C1 witness: limit 3, five nested boundaries, two separator tokens. -/
theorem trace_sep_count_limited_witness :
    countTok (Options.emptyFrame {}) (nestedTrace 3 5)
      = if (3 : ℤ) = 1 then 1 else min 5 ((3 : ℤ) - 1).toNat :=
  trace_sep_count_limited 3 5 (by decide) (by decide)

/-- C2 counterexample: with limit 0, the capture still records the parent
linkage (the second snapshot's parent is the first), and the rendered trace
of an error raised after a single boundary contains 1 separator token, not
0 as a root-only trace would. -/
theorem limit_zero_cx :
    (getErr (chainSt (scOpts 0) 2) 1).parent = some 0 ∧
    countTok (Options.emptyFrame {}) (nestedTrace 0 1) = 1 ∧
    (1 : Nat) ≠ 0 := by
  refine ⟨by decide, ?_, by decide⟩
  rw [nestedTrace_count 0 (by decide) 1 (by decide)]
  decide

/-- C2 (amended): with limit 0 the chain-limiting step is skipped entirely
and the recorded parent linkage is unbounded, so the rendered trace of an
error raised after N nested boundaries contains exactly N separator
tokens. -/
theorem trace_sep_count_unlimited (N : Nat) (hN : 1 ≤ N) :
    countTok (Options.emptyFrame {}) (nestedTrace 0 N) = N := by
  rw [nestedTrace_count 0 (by decide) N hN]
  unfold clen
  simp

/-- C2 witness: four boundaries under limit 0 render four separator
tokens. -/
theorem trace_sep_count_unlimited_witness :
    countTok (Options.emptyFrame {}) (nestedTrace 0 4) = 4 :=
  trace_sep_count_unlimited 4 (by decide)

/-- Helper: the rendered-state component of prepareStackTrace, given the
flattening result. -/
theorem prepareStackTrace_state (opts : Options) (st : St) (e : Nat)
    (stack : List Nat) (st4 : St) (r : Nat)
    (h : processStackTrace (st.errs.length + 1) st e stack false = (st4, r)) :
    (prepareStackTrace opts st e stack).1
      = setArr st4 r (filterSome (getArr st4 r)) := by
  simp only [prepareStackTrace]
  rw [h]

/-- Helper: the platform renderer model reads only error objects and call
sites, never the cache arrays. -/
theorem origPrepareLines_setArr (st : St) (a : Nat) (b : List Entry)
    (e : Nat) (entries : List Entry) :
    origPrepareLines (setArr st a b) e entries
      = origPrepareLines st e entries := rfl

theorem sepIdx_all_some (l : List Entry) (hl : ∀ en ∈ l, en.isSome = true) :
    ∀ i, sepIdx l i = [] := by
  induction l with
  | nil => intro i; rfl
  | cons en rest ih =>
    intro i
    cases en with
    | none => exact absurd (hl none (List.mem_cons_self _ _)) (by simp)
    | some f =>
      show sepIdx rest (i+1) = []
      exact ih (fun en he => hl en (List.mem_cons_of_mem _ he)) (i+1)

theorem filterSome_mem_isSome (l : List Entry) :
    ∀ en ∈ filterSome l, en.isSome = true := by
  intro en he
  exact (List.mem_filter.mp he).2

theorem filterSome_idem (l : List Entry) :
    filterSome (filterSome l) = filterSome l :=
  List.filter_eq_self.mpr (filterSome_mem_isSome l)

theorem insertAt_length (l : List String) (i : Nat) (s : String) :
    (insertAt l i s).length = l.length + 1 := by
  unfold insertAt
  rw [List.length_append, List.length_cons]
  have := List.take_append_drop i l
  have h2 := congrArg List.length this
  rw [List.length_append] at h2
  omega

theorem insertSeps_length (sep : String) :
    ∀ (idxs : List Nat) (lines : List String),
    (insertSeps sep lines idxs).length = lines.length + idxs.length := by
  intro idxs
  induction idxs with
  | nil => intro lines; rfl
  | cons i rest ih =>
    intro lines
    show (insertSeps sep (insertAt lines (i+1) sep) rest).length = _
    rw [ih, insertAt_length, List.length_cons]
    omega

/-- C4 (amended): for an error whose flattened chain is already memoised,
flattening again returns the reference-identical cached array with the
state untouched, and rendering mutates no cache array other than the
error's own; but rendering splices the null separators out of that cache in
place, so while the first rendering interleaves countNone separator tokens
into the lines, a second rendering of the same error yields the bare lines
with no separator tokens, differing from the first whenever the chain had
any separator. -/
theorem render_mutates_own_cache (opts : Options) (st : St) (e : Nat)
    (stack : List Nat) (r : Nat) (h : (getErr st e).cached = some r)
    (hr : r < st.arrs.length) :
    processStackTrace (st.errs.length + 1) st e stack false = (st, r) ∧
    (∀ i, i ≠ r → getArr (prepareStackTrace opts st e stack).1 i
        = getArr st i) ∧
    (prepareStackTrace opts st e stack).2
      = insertSeps opts.emptyFrame
          (origPrepareLines st e (filterSome (getArr st r)))
          (sepIdx (getArr st r) 0) ∧
    (sepIdx (getArr st r) 0).length = countNone (getArr st r) ∧
    (prepareStackTrace opts ((prepareStackTrace opts st e stack).1) e
        stack).2
      = origPrepareLines st e (filterSome (getArr st r)) ∧
    (countNone (getArr st r) ≠ 0 →
      (prepareStackTrace opts st e stack).2
        ≠ (prepareStackTrace opts ((prepareStackTrace opts st e stack).1) e
            stack).2) := by
  have h1 : processStackTrace (st.errs.length + 1) st e stack false
      = (st, r) := processStackTrace_hit _ _ _ _ _ _ h
  have hstate : (prepareStackTrace opts st e stack).1
      = setArr st r (filterSome (getArr st r)) :=
    prepareStackTrace_state opts st e stack st r h1
  have hlines : (prepareStackTrace opts st e stack).2
      = insertSeps opts.emptyFrame
          (origPrepareLines st e (filterSome (getArr st r)))
          (sepIdx (getArr st r) 0) :=
    prepareStackTrace_lines opts st e stack st r h1
  have h1b : processStackTrace
      ((setArr st r (filterSome (getArr st r))).errs.length + 1)
      (setArr st r (filterSome (getArr st r))) e stack false
      = (setArr st r (filterSome (getArr st r)), r) :=
    processStackTrace_hit _ _ _ _ _ _ h
  have hga1 : getArr (setArr st r (filterSome (getArr st r))) r
      = filterSome (getArr st r) := getArr_setArr_self _ _ _ hr
  have hsecond : (prepareStackTrace opts
      (setArr st r (filterSome (getArr st r))) e stack).2
      = origPrepareLines st e (filterSome (getArr st r)) := by
    rw [prepareStackTrace_lines opts _ e stack _ r h1b]
    rw [hga1]
    rw [sepIdx_all_some (filterSome (getArr st r))
      (filterSome_mem_isSome _) 0]
    rw [filterSome_idem]
    rw [origPrepareLines_setArr, origPrepareLines_setArr]
    rfl
  refine ⟨h1, ?_, hlines, sepIdx_length _ 0, ?_, ?_⟩
  · intro i hi
    rw [hstate]
    exact getArr_setArr_ne _ _ _ _ (fun he => hi he.symm)
  · rw [hstate]
    exact hsecond
  · intro hcn
    rw [hstate, hsecond, hlines]
    intro heq
    have hlen := congrArg List.length heq
    rw [insertSeps_length, sepIdx_length] at hlen
    omega

/-- C4 counterexample: after one boundary under the default limit,
rendering the raised error's stack twice produces different strings: the
first rendering carries one separator token, the second none, because the
first rendering spliced the separator marker out of the memoised cache in
place. -/
theorem render_twice_differs :
    countTok (Options.emptyFrame {})
      (prepareStackTrace (scOpts 10) (raisedSt (chainSt (scOpts 10) 1)) 1
        [1]).2 = 1 ∧
    countTok (Options.emptyFrame {})
      (prepareStackTrace (scOpts 10)
        (prepareStackTrace (scOpts 10) (raisedSt (chainSt (scOpts 10) 1)) 1
          [1]).1 1 [1]).2 = 0 ∧
    prepareStackTraceStr (scOpts 10) (raisedSt (chainSt (scOpts 10) 1)) 1 [1]
      ≠ prepareStackTraceStr (scOpts 10)
        (prepareStackTrace (scOpts 10) (raisedSt (chainSt (scOpts 10) 1)) 1
          [1]).1 1 [1] := by
  refine ⟨by decide, by decide, by decide⟩

/-- A one-error state whose memoised flattened cache holds one separator,
exercising the rendering theorems at a concrete input. -/
def cachedStateW : St :=
  { errs := [{ msg := "E", cached := some 0, stack := [0] }],
    arrs := [[some 0, none, some 1]],
    frames := [{ fileName := "app.js", text := "f0" },
               { fileName := "app.js", text := "f1" }] }

/-- C4 witness: on the concrete cached state, flattening again returns the
identical reference with the state untouched, and the two renderings
differ. -/
theorem render_mutates_own_cache_witness :
    processStackTrace (cachedStateW.errs.length + 1) cachedStateW 0 [0]
        false = (cachedStateW, 0) ∧
    (prepareStackTrace {} cachedStateW 0 [0]).2
      ≠ (prepareStackTrace {} ((prepareStackTrace {} cachedStateW 0 [0]).1)
          0 [0]).2 := by
  have h2 := render_mutates_own_cache {} cachedStateW 0 [0] 0 rfl (by decide)
  exact ⟨h2.1, h2.2.2.2.2.2 (by decide)⟩

end DoubleStack
